import Mathlib

/-!
# Verification of the freecad-automation drawing QA core

Shallow embedding of the drawing-plan / repair / scoring pipeline of the
`freecad-automation` repository, together with proofs about it.

* The SVG post-processor and QA scorer are specified in the repository's
  design documents (the Python scripts themselves are not part of the
  source tree); those parts are modelled from the spec and marked as such.
* The CLI orchestrator (`cmdDraw`, `buildQaIssueReport`), the config merge
  (`deepMerge`) and the interactive plan patch (`updateDimIntent`) are
  embedded from the JavaScript source.
-/

namespace FreecadQA

/-! ## Fixed-precision rounding

`round_coordinates` rounds every numeric geometric attribute to two decimal
places.  Rationals stand in for the numeric attribute values. -/

/-- Round a rational to `p` decimal places (round-half-up, as `round`). -/
def roundTo (p : ℕ) (q : ℚ) : ℚ :=
  ((round (q * (10 : ℚ) ^ p) : ℤ) : ℚ) / (10 : ℚ) ^ p

theorem roundTo_idem (p : ℕ) (q : ℚ) : roundTo p (roundTo p q) = roundTo p q := by
  unfold roundTo
  have hpow : ((10 : ℚ) ^ p) ≠ 0 := by positivity
  rw [div_mul_cancel₀ _ hpow, round_intCast]

theorem roundTo_add_int (p : ℕ) (q : ℚ) (n : ℤ) :
    roundTo p (q + (n : ℚ)) = roundTo p q + (n : ℚ) := by
  unfold roundTo
  have hpow : ((10 : ℚ) ^ p) ≠ 0 := by positivity
  have : (q + (n : ℚ)) * (10 : ℚ) ^ p = q * (10 : ℚ) ^ p + ((n * 10 ^ p : ℤ) : ℚ) := by
    push_cast; ring
  rw [this, round_add_int]
  push_cast
  field_simp

/-- A rational already at two-decimal precision. -/
def roundedQ (q : ℚ) : Bool := roundTo 2 q == q

theorem roundedQ_iff (q : ℚ) : roundedQ q = true ↔ roundTo 2 q = q := by
  simp [roundedQ]

theorem roundedQ_add_four_mul (q : ℚ) (k : ℕ) (h : roundedQ q = true) :
    roundedQ (q + 4 * (k : ℚ)) = true := by
  rw [roundedQ_iff] at h ⊢
  have : (4 : ℚ) * (k : ℚ) = (((4 * k : ℕ) : ℤ) : ℚ) := by push_cast; ring
  rw [this, roundTo_add_int, h]

/-! ## Document model

A flat list of styled groups, each holding paths (coordinate lists, also
standing in for polylines) and text elements.  This mirrors the SVG
structure the repair rules and metrics operate on: top-level `<g>` elements
with a semantic `class`, stroke attributes, `<path>`/`<polyline>` children
and `<text>` children.  Text content is modelled as its list of words (the
repair rules only use word boundaries and character counts). -/

structure TextElem where
  content : List String
  x : ℚ
  y : ℚ
  fontSize : ℚ
  deriving DecidableEq

structure PathElem where
  pts : List (ℚ × ℚ)
  deriving DecidableEq

structure GroupElem where
  cls : String
  stroke : List (String × String)
  paths : List PathElem
  texts : List TextElem
  deriving DecidableEq

/-- An SVG document: the ordered list of top-level groups. -/
abbrev Doc := List GroupElem

/-- A page rectangle (A3 landscape, millimetres). -/
structure Rect where
  x : ℚ
  y : ℚ
  w : ℚ
  h : ℚ
  deriving DecidableEq

/-- The four fixed view cells of the page. -/
def topCell : Rect := ⟨15, 15, 195, 116⟩
def isoCell : Rect := ⟨210, 15, 195, 116⟩
def frontCell : Rect := ⟨15, 131, 195, 116⟩
def rightCell : Rect := ⟨210, 131, 195, 116⟩

/-- Strict interior containment: a point on a shared cell edge belongs to no
cell, so that every node belongs to at most one cell (the document model
demands membership in exactly one cell or none). -/
def Rect.containsP (r : Rect) (px py : ℚ) : Bool :=
  decide (r.x < px) && decide (px < r.x + r.w) &&
  decide (r.y < py) && decide (py < r.y + r.h)

/-- Approximate bounding box `(minx, miny, maxx, maxy)` of a coordinate list. -/
def bboxOf : List (ℚ × ℚ) → Option (ℚ × ℚ × ℚ × ℚ)
  | [] => none
  | p :: rest =>
    some (rest.foldl
      (fun acc q => (min acc.1 q.1, min acc.2.1 q.2, max acc.2.2.1 q.1, max acc.2.2.2 q.2))
      (p.1, p.2, p.1, p.2))

/-- Centre of a bounding box. -/
def bboxCenter (b : ℚ × ℚ × ℚ × ℚ) : ℚ × ℚ :=
  ((b.1 + b.2.2.1) / 2, (b.2.1 + b.2.2.2) / 2)

/-- Representative geometry centre of a group: centre of its first path's
bounding box. -/
def GroupElem.reprCenter (g : GroupElem) : Option (ℚ × ℚ) :=
  match g.paths with
  | [] => none
  | p :: _ => (bboxOf p.pts).map bboxCenter

/-! ## Mandatory repair rules

Modelled from the spec: the four mandatory rules of the Document Repair
Engine (`postprocess_svg.py` is specified by the repository's design
documents; the script itself is not in the source tree).  Rules, in fixed
order: hidden-line suppression in the isometric cell, stroke
normalization, note re-flow, coordinate rounding. -/

/-- Suffix test on the character lists of two strings. -/
def endsWithL (c suf : String) : Bool :=
  c.data.reverse.take suf.data.length == suf.data.reverse

/-- Prefix test on the character lists of two strings. -/
def startsWithL (c pre : String) : Bool := c.data.take pre.data.length == pre.data

/-- Drop the last `n` characters of a string. -/
def dropRightL (s : String) (n : ℕ) : String :=
  String.mk (s.data.take (s.data.length - n))

/-- Hidden-line classes (`*_hidden` suffix match). -/
def isHiddenClass (c : String) : Bool := endsWithL c "_hidden"

/-- Group slated for removal by rule 1: hidden-line class with representative
centre inside the isometric cell. -/
def removePred (g : GroupElem) : Bool :=
  isHiddenClass g.cls &&
    (match g.reprCenter with
     | none => false
     | some c => isoCell.containsP c.1 c.2)

/-- Modelled from the spec: rule 1, hidden-line suppression — removes every
hidden-line group whose representative geometry centres inside the isometric
cell. -/
def remove_iso_hidden (d : Doc) : Doc := d.filter (fun g => !removePred g)

/-- The KS stroke profile: semantic class → forced stroke attributes
(`dimensions-*` is a suffix-wildcard entry). -/
def strokeProfileKS : List (String × List (String × String)) :=
  [ ("hard_visible",   [("stroke-width", "0.7"),  ("stroke", "#000")]),
    ("outer_visible",  [("stroke-width", "0.50"), ("stroke", "#000")]),
    ("smooth_visible", [("stroke-width", "0.35"), ("stroke", "#000")]),
    ("outer_hidden",   [("stroke-width", "0.20"), ("stroke", "#333"), ("stroke-dasharray", "3,1.5")]),
    ("hard_hidden",    [("stroke-width", "0.20"), ("stroke", "#333"), ("stroke-dasharray", "3,1.5")]),
    ("smooth_hidden",  [("stroke-width", "0.20"), ("stroke", "#444"), ("stroke-dasharray", "3,1.5")]),
    ("centerlines",    [("stroke-width", "0.18"), ("stroke-dasharray", "8,2,1.5,2")]),
    ("symmetry-axes",  [("stroke-width", "0.13"), ("stroke-dasharray", "8,2,1.5,2")]),
    ("gdt-leader",     [("stroke-width", "0.25")]),
    ("dimensions-*",   [("stroke-width", "0.18")]) ]

/-- Profile key match: exact, or suffix-wildcard (`dimensions-*` matches
`dimensions-front`, …). -/
def wildMatch (key cls : String) : Bool :=
  if endsWithL key "*" then startsWithL cls (dropRightL key 1) else key == cls

/-- Stroke attributes dictated by the profile for a class, if any. -/
def profileFor (cls : String) : Option (List (String × String)) :=
  (strokeProfileKS.find? (fun e => wildMatch e.1 cls)).map Prod.snd

/-- Force the attributes `upd` onto `base` (override matching keys, keep the
rest). -/
def setAttrs (base upd : List (String × String)) : List (String × String) :=
  base.filter (fun kv => !(upd.any (fun uv => uv.1 == kv.1))) ++ upd

/-- Rule 2 on one group. -/
def normGroup (g : GroupElem) : GroupElem :=
  match profileFor g.cls with
  | none => g
  | some upd => { g with stroke := setAttrs g.stroke upd }

/-- Modelled from the spec: rule 2, stroke normalization — forces each styled
group's stroke attributes to the profile value for its semantic class. -/
def normalize_strokes (d : Doc) : Doc := d.map normGroup

/-! ### Rule 3: note re-flow

Fixed config: max line width 180 mm, font size 2.0 mm, character width
factor 0.55 (so a line of `n` characters fits iff `n * 2.0 * 0.55 ≤ 180`,
i.e. `n * 11 ≤ 1800`), line height 4.0 mm, left margin x = 19.0. -/

/-- Character count of a line of words, including separating spaces. -/
def lineChars (ws : List String) : ℕ := (ws.map String.length).sum + (ws.length - 1)

/-- Does a line of words fit in the 180 mm width at font 2.0? -/
def fitsLine (ws : List String) : Bool := lineChars ws * 11 ≤ 1800

/-- Greedy word-wrap worker: `cur` is the (nonempty) line under construction. -/
def wrapGo (cur : List String) : List String → List (List String)
  | [] => [cur]
  | w :: rest =>
    if fitsLine (cur ++ [w]) then wrapGo (cur ++ [w]) rest
    else cur :: wrapGo [w] rest

/-- Greedy word-wrap of one annotation line to the fixed maximum width. -/
def wrapWords : List String → List (List String)
  | [] => []
  | w :: rest => wrapGo [w] rest

/-- The distinguished notes header line. -/
def TextElem.isHeader (t : TextElem) : Bool := t.content.head? == some "NOTES:"

/-- One text element → its re-flowed lines with their font size (the header
keeps its own font size, other lines get the fixed 2.0). -/
def reflowOne (t : TextElem) : List (List String × ℚ) :=
  if t.isHeader then [(t.content, t.fontSize)]
  else (wrapWords t.content).map (fun l => (l, 2))

def flatMapL (f : α → List β) : List α → List β
  | [] => []
  | a :: l => f a ++ flatMapL f l

/-- Place re-flowed lines at the fixed left margin, spaced at the fixed line
height below the anchor. -/
def placeLines (anchor : ℚ) : ℕ → List (List String × ℚ) → List TextElem
  | _, [] => []
  | k, (l, f) :: rest => ⟨l, 19, anchor + 4 * (k : ℕ), f⟩ :: placeLines anchor (k + 1) rest

/-- Re-flow the texts of a notes group: wrap every line, then re-space all
resulting lines at the fixed line height from the first line's position. -/
def reflowTexts (ts : List TextElem) : List TextElem :=
  match ts with
  | [] => []
  | t0 :: _ => placeLines t0.y 0 (flatMapL reflowOne ts)

/-- Rule 3 on one group. -/
def rewrapGroup (g : GroupElem) : GroupElem :=
  if g.cls == "general-notes" then { g with texts := reflowTexts g.texts } else g

/-- Modelled from the spec: rule 3, note re-flow — re-wraps general-notes
annotation text to the fixed maximum width and re-spaces the lines. -/
def rewrap_notes (d : Doc) : Doc := d.map rewrapGroup

/-! ### Rule 4: coordinate rounding -/

def roundPt (q : ℚ × ℚ) : ℚ × ℚ := (roundTo 2 q.1, roundTo 2 q.2)

def roundPath (p : PathElem) : PathElem := ⟨p.pts.map roundPt⟩

def roundText (t : TextElem) : TextElem := { t with x := roundTo 2 t.x, y := roundTo 2 t.y }

def roundGroup (g : GroupElem) : GroupElem :=
  { g with paths := g.paths.map roundPath, texts := g.texts.map roundText }

/-- Modelled from the spec: rule 4, coordinate rounding — rounds every
numeric geometric attribute (path coordinates, text positions) to two
decimal places. -/
def round_coordinates (d : Doc) : Doc := d.map roundGroup

/-- Modelled from the spec: the full mandatory repair tier, in its fixed
order — hidden-line suppression, stroke normalization, note re-flow,
coordinate rounding. -/
def postprocessMandatory (d : Doc) : Doc :=
  round_coordinates (rewrap_notes (normalize_strokes (remove_iso_hidden d)))

/-! ### Precision predicates -/

def pathRounded (p : PathElem) : Bool := p.pts.all (fun q => roundedQ q.1 && roundedQ q.2)

def textRounded (t : TextElem) : Bool := roundedQ t.x && roundedQ t.y

def groupRounded (g : GroupElem) : Bool := g.paths.all pathRounded && g.texts.all textRounded

/-- All geometric coordinates of the document are already at the fixed
two-decimal precision. -/
def docRounded (d : Doc) : Bool := d.all groupRounded

/-! ## Idempotence of the mandatory rules -/

theorem map_eq_self_of {α : Type} {f : α → α} :
    ∀ {l : List α}, (∀ x ∈ l, f x = x) → l.map f = l
  | [], _ => rfl
  | x :: l, h => by
    simp only [List.map_cons, h x (by simp)]
    rw [map_eq_self_of (fun y hy => h y (by simp [hy]))]

theorem remove_iso_hidden_idem (d : Doc) :
    remove_iso_hidden (remove_iso_hidden d) = remove_iso_hidden d := by
  unfold remove_iso_hidden
  rw [List.filter_filter]
  simp

theorem setAttrs_idem (b u : List (String × String)) :
    setAttrs (setAttrs b u) u = setAttrs b u := by
  unfold setAttrs
  rw [List.filter_append]
  have h1 : (u.filter fun kv => !(u.any fun uv => uv.1 == kv.1)) = [] := by
    rw [List.filter_eq_nil_iff]
    intro kv hkv
    simp only [Bool.not_eq_true', Bool.not_eq_false]
    exact List.any_eq_true.mpr ⟨kv, hkv, by simp⟩
  rw [h1, List.append_nil, List.filter_filter]
  simp

theorem normGroup_cls (g : GroupElem) : (normGroup g).cls = g.cls := by
  unfold normGroup; cases profileFor g.cls <;> rfl

theorem normGroup_paths (g : GroupElem) : (normGroup g).paths = g.paths := by
  unfold normGroup; cases profileFor g.cls <;> rfl

theorem normGroup_texts (g : GroupElem) : (normGroup g).texts = g.texts := by
  unfold normGroup; cases profileFor g.cls <;> rfl

theorem normGroup_idem (g : GroupElem) : normGroup (normGroup g) = normGroup g := by
  unfold normGroup
  rcases h : profileFor g.cls with _ | upd
  · simp [h]
  · simp [h, setAttrs_idem]

theorem normalize_strokes_idem (d : Doc) :
    normalize_strokes (normalize_strokes d) = normalize_strokes d := by
  unfold normalize_strokes
  rw [List.map_map]
  exact List.map_congr_left (fun g _ => normGroup_idem g)

/-! ### Note re-flow: idempotence -/

theorem lineChars_append_le (l1 l2 : List String) :
    lineChars l1 ≤ lineChars (l1 ++ l2) := by
  unfold lineChars
  simp only [List.map_append, List.sum_append, List.length_append]
  omega

theorem fitsLine_of_append {l1 l2 : List String} (h : fitsLine (l1 ++ l2) = true) :
    fitsLine l1 = true := by
  unfold fitsLine at h ⊢
  simp only [decide_eq_true_eq] at h ⊢
  exact le_trans (Nat.mul_le_mul_right _ (lineChars_append_le l1 l2)) h

theorem wrapGo_of_fits : ∀ (ws cur : List String), fitsLine (cur ++ ws) = true →
    wrapGo cur ws = [cur ++ ws]
  | [], cur, _ => by simp [wrapGo]
  | w :: rest, cur, h => by
    have hassoc : cur ++ w :: rest = (cur ++ [w]) ++ rest := by simp
    have hfit : fitsLine (cur ++ [w]) = true := by
      rw [hassoc] at h; exact fitsLine_of_append h
    unfold wrapGo
    rw [hfit]
    simp only [if_true]
    rw [wrapGo_of_fits rest (cur ++ [w]) (by rw [← hassoc]; exact h)]
    simp

/-- Every line emitted by the greedy wrapper either fits the width or is a
single (overlong) word, and is nonempty. -/
theorem wrapGo_mem : ∀ (ws cur : List String),
    (fitsLine cur = true ∨ ∃ w, cur = [w]) → cur ≠ [] →
    ∀ L ∈ wrapGo cur ws, ((fitsLine L = true ∨ ∃ w, L = [w]) ∧ L ≠ [])
  | [], cur, hc, hne, L, hL => by
    simp only [wrapGo, List.mem_singleton] at hL
    exact hL ▸ ⟨hc, hne⟩
  | w :: rest, cur, hc, hne, L, hL => by
    unfold wrapGo at hL
    by_cases hf : fitsLine (cur ++ [w]) = true
    · rw [hf] at hL
      simp only [if_true] at hL
      exact wrapGo_mem rest (cur ++ [w]) (Or.inl hf) (by simp) L hL
    · rw [Bool.eq_false_iff.mpr hf] at hL
      simp only [Bool.false_eq_true, if_false, List.mem_cons] at hL
      rcases hL with rfl | hL
      · exact ⟨hc, hne⟩
      · exact wrapGo_mem rest [w] (Or.inr ⟨w, rfl⟩) (by simp) L hL

/-- Re-wrapping a line the wrapper produced reproduces exactly that line. -/
theorem wrapWords_mem_self {ws L : List String} (hL : L ∈ wrapWords ws) :
    wrapWords L = [L] := by
  rcases ws with _ | ⟨w, rest⟩
  · simp [wrapWords] at hL
  · have h := wrapGo_mem rest [w] (Or.inr ⟨w, rfl⟩) (by simp) L hL
    rcases h with ⟨hfit | ⟨w', rfl⟩, hne⟩
    · rcases L with _ | ⟨l0, ltl⟩
      · exact absurd rfl hne
      · show wrapGo [l0] ltl = [l0 :: ltl]
        exact wrapGo_of_fits ltl [l0] hfit
    · rfl

theorem mem_flatMapL {α β : Type} {f : α → List β} :
    ∀ {l : List α} {b : β}, b ∈ flatMapL f l → ∃ a ∈ l, b ∈ f a
  | [], _, h => by simp [flatMapL] at h
  | a :: l, b, h => by
    unfold flatMapL at h
    rcases List.mem_append.mp h with h1 | h2
    · exact ⟨a, by simp, h1⟩
    · rcases mem_flatMapL h2 with ⟨a', ha', hb⟩
      exact ⟨a', by simp [ha'], hb⟩

/-- A line the re-flow produced, re-flowed at any position, is reproduced
unchanged. -/
theorem reflowOne_produced {t : TextElem} {l : List String} {f : ℚ}
    (h : (l, f) ∈ reflowOne t) (x y : ℚ) :
    reflowOne ⟨l, x, y, f⟩ = [(l, f)] := by
  unfold reflowOne at h
  by_cases hh : t.isHeader = true
  · rw [if_pos hh] at h
    simp only [List.mem_singleton, Prod.mk.injEq] at h
    obtain ⟨rfl, rfl⟩ := h
    have : TextElem.isHeader ⟨t.content, x, y, t.fontSize⟩ = true := by
      unfold TextElem.isHeader at hh ⊢
      exact hh
    unfold reflowOne
    rw [if_pos this]
  · rw [if_neg hh] at h
    rcases List.mem_map.mp h with ⟨l', hl', heq⟩
    obtain ⟨rfl, rfl⟩ : l' = l ∧ (2 : ℚ) = f := by
      constructor <;> [exact (Prod.mk.injEq _ _ _ _ ▸ heq).1; exact (Prod.mk.injEq _ _ _ _ ▸ heq).2]
    unfold reflowOne
    by_cases hd : TextElem.isHeader ⟨l', x, y, 2⟩ = true
    · rw [if_pos hd]
    · rw [if_neg hd, wrapWords_mem_self hl']
      rfl

theorem flatMapL_placeLines (a : ℚ) :
    ∀ (k : ℕ) (L : List (List String × ℚ)),
      (∀ p ∈ L, ∀ x y : ℚ, reflowOne ⟨p.1, x, y, p.2⟩ = [p]) →
      flatMapL reflowOne (placeLines a k L) = L
  | _, [], _ => rfl
  | k, (l, f) :: rest, h => by
    unfold placeLines flatMapL
    rw [h (l, f) (by simp) 19 (a + 4 * (k : ℚ)),
        flatMapL_placeLines a (k + 1) rest (fun p hp => h p (by simp [hp]))]
    rfl

/-- Re-flowing an already-placed block of stable lines changes nothing. -/
theorem reflowTexts_placeLines (a : ℚ) (L : List (List String × ℚ))
    (hstab : ∀ p ∈ L, ∀ x y : ℚ, reflowOne ⟨p.1, x, y, p.2⟩ = [p]) :
    reflowTexts (placeLines a 0 L) = placeLines a 0 L := by
  rcases L with _ | ⟨⟨l0, f0⟩, Ltl⟩
  · rfl
  · have hflat : flatMapL reflowOne (⟨l0, 19, a + 4 * ((0 : ℕ) : ℚ), f0⟩ ::
        placeLines a 1 Ltl) = (l0, f0) :: Ltl := by
      show reflowOne ⟨l0, 19, a + 4 * ((0 : ℕ) : ℚ), f0⟩ ++
        flatMapL reflowOne (placeLines a 1 Ltl) = _
      rw [hstab (l0, f0) (by simp) _ _,
          flatMapL_placeLines a 1 Ltl (fun p hp => hstab p (by simp [hp]))]
      rfl
    calc reflowTexts (placeLines a 0 ((l0, f0) :: Ltl))
        = placeLines (a + 4 * ((0 : ℕ) : ℚ)) 0
            (flatMapL reflowOne (⟨l0, 19, a + 4 * ((0 : ℕ) : ℚ), f0⟩ ::
              placeLines a 1 Ltl)) := rfl
      _ = placeLines (a + 4 * ((0 : ℕ) : ℚ)) 0 ((l0, f0) :: Ltl) := by rw [hflat]
      _ = placeLines a 0 ((l0, f0) :: Ltl) := by norm_num

/-- Re-flowing a notes block twice equals re-flowing it once. -/
theorem reflowTexts_idem (ts : List TextElem) :
    reflowTexts (reflowTexts ts) = reflowTexts ts := by
  rcases ts with _ | ⟨t0, tr⟩
  · rfl
  · have hstab : ∀ p ∈ flatMapL reflowOne (t0 :: tr), ∀ x y : ℚ,
        reflowOne ⟨p.1, x, y, p.2⟩ = [p] := by
      intro p hp x y
      rcases mem_flatMapL hp with ⟨t, _, hpt⟩
      exact reflowOne_produced (by simpa using hpt) x y
    exact reflowTexts_placeLines t0.y (flatMapL reflowOne (t0 :: tr)) hstab

theorem rewrapGroup_cls (g : GroupElem) : (rewrapGroup g).cls = g.cls := by
  unfold rewrapGroup; split <;> rfl

theorem rewrapGroup_paths (g : GroupElem) : (rewrapGroup g).paths = g.paths := by
  unfold rewrapGroup; split <;> rfl

theorem rewrapGroup_stroke (g : GroupElem) : (rewrapGroup g).stroke = g.stroke := by
  unfold rewrapGroup; split <;> rfl

theorem rewrapGroup_idem (g : GroupElem) : rewrapGroup (rewrapGroup g) = rewrapGroup g := by
  unfold rewrapGroup
  by_cases h : g.cls == "general-notes"
  · simp [h, reflowTexts_idem]
  · simp [h]

theorem rewrap_notes_idem (d : Doc) : rewrap_notes (rewrap_notes d) = rewrap_notes d := by
  unfold rewrap_notes
  rw [List.map_map]
  exact List.map_congr_left (fun g _ => rewrapGroup_idem g)

theorem roundPt_idem (q : ℚ × ℚ) : roundPt (roundPt q) = roundPt q := by
  simp [roundPt, roundTo_idem]

theorem roundPath_idem (p : PathElem) : roundPath (roundPath p) = roundPath p := by
  unfold roundPath
  simp only [List.map_map]
  exact congrArg PathElem.mk (List.map_congr_left (fun q _ => roundPt_idem q))

theorem roundText_idem (t : TextElem) : roundText (roundText t) = roundText t := by
  simp [roundText, roundTo_idem]

theorem roundGroup_idem (g : GroupElem) : roundGroup (roundGroup g) = roundGroup g := by
  unfold roundGroup
  simp only [List.map_map]
  congr 1
  · exact List.map_congr_left (fun p _ => roundPath_idem p)
  · exact List.map_congr_left (fun t _ => roundText_idem t)

theorem round_coordinates_idem (d : Doc) :
    round_coordinates (round_coordinates d) = round_coordinates d := by
  unfold round_coordinates
  rw [List.map_map]
  exact List.map_congr_left (fun g _ => roundGroup_idem g)

/-! ### Interaction lemmas for the composite tier -/

theorem removePred_normGroup (g : GroupElem) : removePred (normGroup g) = removePred g := by
  unfold removePred GroupElem.reprCenter
  rw [normGroup_cls, normGroup_paths]

theorem removePred_rewrapGroup (g : GroupElem) : removePred (rewrapGroup g) = removePred g := by
  unfold removePred GroupElem.reprCenter
  rw [rewrapGroup_cls, rewrapGroup_paths]

/-- A group whose stroke attributes are already fixed points of the profile
override is unchanged by normalization. -/
theorem normGroup_of_stroke_fixed {g : GroupElem}
    (h : ∀ upd, profileFor g.cls = some upd → setAttrs g.stroke upd = g.stroke) :
    normGroup g = g := by
  unfold normGroup
  rcases hp : profileFor g.cls with _ | upd
  · rfl
  · show { cls := g.cls, stroke := setAttrs g.stroke upd,
           paths := g.paths, texts := g.texts } = g
    rw [h upd hp]

theorem normGroup_rewrapGroup_normGroup (g : GroupElem) :
    normGroup (rewrapGroup (normGroup g)) = rewrapGroup (normGroup g) := by
  apply normGroup_of_stroke_fixed
  intro upd hp
  rw [rewrapGroup_cls, normGroup_cls] at hp
  rw [rewrapGroup_stroke]
  have hns : (normGroup g).stroke = setAttrs g.stroke upd := by
    unfold normGroup; rw [hp]
  rw [hns, setAttrs_idem]

/-! ### Precision preservation -/

theorem roundedQ_nineteen : roundedQ 19 = true := by
  rw [roundedQ_iff]
  unfold roundTo
  have h1 : (19 : ℚ) * (10 : ℚ) ^ 2 = ((1900 : ℤ) : ℚ) := by norm_num
  rw [h1, round_intCast]
  norm_num

theorem placeLines_all_rounded (a : ℚ) (ha : roundedQ a = true) :
    ∀ (k : ℕ) (L : List (List String × ℚ)),
      (placeLines a k L).all textRounded = true
  | _, [] => rfl
  | k, (l, f) :: rest => by
    unfold placeLines
    rw [List.all_cons, Bool.and_eq_true]
    refine ⟨?_, placeLines_all_rounded a ha (k + 1) rest⟩
    show (roundedQ 19 && roundedQ (a + 4 * (k : ℚ))) = true
    rw [roundedQ_nineteen, roundedQ_add_four_mul a k ha]
    rfl

theorem groupRounded_normGroup (g : GroupElem) :
    groupRounded (normGroup g) = groupRounded g := by
  unfold groupRounded
  rw [normGroup_paths, normGroup_texts]

theorem groupRounded_rewrapGroup {g : GroupElem} (h : groupRounded g = true) :
    groupRounded (rewrapGroup g) = true := by
  unfold rewrapGroup
  split
  · unfold groupRounded at h ⊢
    rw [Bool.and_eq_true] at h
    obtain ⟨hp, ht⟩ := h
    rw [Bool.and_eq_true]
    refine ⟨hp, ?_⟩
    rcases hts : g.texts with _ | ⟨t0, tr⟩
    · rfl
    · show (reflowTexts (t0 :: tr)).all textRounded = true
      unfold reflowTexts
      apply placeLines_all_rounded
      have ht0 : textRounded t0 = true := by
        rw [hts, List.all_cons, Bool.and_eq_true] at ht
        exact ht.1
      rw [textRounded, Bool.and_eq_true] at ht0
      exact ht0.2
  · exact h

theorem docRounded_filter {d : Doc} (p : GroupElem → Bool) (h : docRounded d = true) :
    docRounded (d.filter p) = true := by
  unfold docRounded at h ⊢
  rw [List.all_eq_true] at h ⊢
  intro g hg
  exact h g (List.mem_filter.mp hg).1

theorem round_coordinates_eq_self {d : Doc} (h : docRounded d = true) :
    round_coordinates d = d := by
  unfold round_coordinates
  apply map_eq_self_of
  intro g hg
  have hground : groupRounded g = true := by
    unfold docRounded at h
    rw [List.all_eq_true] at h
    exact h g hg
  unfold groupRounded at hground
  rw [Bool.and_eq_true] at hground
  obtain ⟨hp, ht⟩ := hground
  unfold roundGroup
  have hpaths : g.paths.map roundPath = g.paths := by
    apply map_eq_self_of
    intro p hpmem
    have : pathRounded p = true := by
      rw [List.all_eq_true] at hp; exact hp p hpmem
    unfold roundPath
    refine congrArg PathElem.mk (map_eq_self_of ?_)
    intro q hq
    have hq' : (roundedQ q.1 && roundedQ q.2) = true := by
      unfold pathRounded at this
      rw [List.all_eq_true] at this
      exact this q hq
    rw [Bool.and_eq_true] at hq'
    obtain ⟨h1, h2⟩ := hq'
    rw [roundedQ_iff] at h1 h2
    unfold roundPt
    rw [h1, h2]
  have htexts : g.texts.map roundText = g.texts := by
    apply map_eq_self_of
    intro t htmem
    have htr : textRounded t = true := by
      rw [List.all_eq_true] at ht; exact ht t htmem
    unfold textRounded at htr
    rw [Bool.and_eq_true] at htr
    obtain ⟨h1, h2⟩ := htr
    rw [roundedQ_iff] at h1 h2
    unfold roundText
    rw [h1, h2]
  rw [hpaths, htexts]

theorem docRounded_normalize : ∀ d : Doc, docRounded (normalize_strokes d) = docRounded d
  | [] => rfl
  | g :: t => by
    show (groupRounded (normGroup g) && docRounded (normalize_strokes t)) =
      (groupRounded g && docRounded t)
    rw [groupRounded_normGroup, docRounded_normalize t]

theorem docRounded_rewrap : ∀ {d : Doc}, docRounded d = true →
    docRounded (rewrap_notes d) = true
  | [], _ => rfl
  | g :: t, h => by
    have h' : (groupRounded g && docRounded t) = true := h
    rw [Bool.and_eq_true] at h'
    show (groupRounded (rewrapGroup g) && docRounded (rewrap_notes t)) = true
    rw [Bool.and_eq_true]
    exact ⟨groupRounded_rewrapGroup h'.1, docRounded_rewrap h'.2⟩

/-- Every group surviving the first pass has the shape
`rewrapGroup (normGroup g₀)` for a kept `g₀`. -/
theorem mem_after_three {d : Doc} {g : GroupElem}
    (hg : g ∈ rewrap_notes (normalize_strokes (remove_iso_hidden d))) :
    ∃ g0, (!removePred g0) = true ∧ g = rewrapGroup (normGroup g0) := by
  unfold rewrap_notes normalize_strokes at hg
  rw [List.map_map] at hg
  rcases List.mem_map.mp hg with ⟨g0, hg0, rfl⟩
  exact ⟨g0, (List.mem_filter.mp hg0).2, rfl⟩

theorem remove_iso_hidden_fix (d : Doc) :
    remove_iso_hidden (rewrap_notes (normalize_strokes (remove_iso_hidden d))) =
      rewrap_notes (normalize_strokes (remove_iso_hidden d)) := by
  apply List.filter_eq_self.mpr
  intro g hg
  obtain ⟨g0, hkeep, rfl⟩ := mem_after_three hg
  rw [Bool.not_eq_eq_eq_not] at hkeep ⊢
  rw [removePred_rewrapGroup, removePred_normGroup]
  exact hkeep

theorem normalize_strokes_fix (d : Doc) :
    normalize_strokes (rewrap_notes (normalize_strokes (remove_iso_hidden d))) =
      rewrap_notes (normalize_strokes (remove_iso_hidden d)) := by
  apply map_eq_self_of
  intro g hg
  obtain ⟨g0, _, rfl⟩ := mem_after_three hg
  exact normGroup_rewrapGroup_normGroup g0

theorem rewrap_notes_fix (d : Doc) :
    rewrap_notes (rewrap_notes (normalize_strokes (remove_iso_hidden d))) =
      rewrap_notes (normalize_strokes (remove_iso_hidden d)) :=
  rewrap_notes_idem _

/-- On a document whose coordinates are already at the fixed precision, the
full mandatory tier is idempotent. -/
theorem postprocessMandatory_idem_of_rounded {d : Doc} (h : docRounded d = true) :
    postprocessMandatory (postprocessMandatory d) = postprocessMandatory d := by
  have h3 : docRounded (rewrap_notes (normalize_strokes (remove_iso_hidden d))) = true :=
    docRounded_rewrap (by rw [docRounded_normalize]; exact docRounded_filter _ h)
  have hz : postprocessMandatory d =
      rewrap_notes (normalize_strokes (remove_iso_hidden d)) := by
    unfold postprocessMandatory
    exact round_coordinates_eq_self h3
  rw [hz]
  unfold postprocessMandatory
  rw [remove_iso_hidden_fix, normalize_strokes_fix, rewrap_notes_fix]
  exact round_coordinates_eq_self h3

/-! ### The mandatory tier is not idempotent on unrounded input

A hidden-line group whose representative centre sits exactly on the
isometric cell's left edge before rounding (at x = 209.995 and 210.005, so
the centre is 210) survives the first pass; rounding then moves the centre
to 210.005, strictly inside the cell, and the second pass removes it. -/

def cexGroup : GroupElem :=
  ⟨"hard_hidden", [], [⟨[((41999 : ℚ)/200, 73), ((42001 : ℚ)/200, 73)]⟩], []⟩

def cexDoc : Doc := [cexGroup]

def cexGroup' : GroupElem :=
  ⟨"hard_hidden",
   [("stroke-width", "0.20"), ("stroke", "#333"), ("stroke-dasharray", "3,1.5")],
   [⟨[((210 : ℚ), 73), ((21001 : ℚ)/100, 73)]⟩], []⟩

theorem roundTo2_int (n : ℤ) : roundTo 2 ((n : ℤ) : ℚ) = (n : ℚ) := by
  unfold roundTo
  have h : ((n : ℚ)) * (10 : ℚ) ^ 2 = ((n * 100 : ℤ) : ℚ) := by push_cast; ring
  rw [h, round_intCast]
  push_cast
  rw [mul_div_assoc]
  norm_num

theorem roundTo2_73 : roundTo 2 (73 : ℚ) = 73 := by
  have := roundTo2_int 73; push_cast at this; exact this

theorem roundTo2_210 : roundTo 2 (210 : ℚ) = 210 := by
  have := roundTo2_int 210; push_cast at this; exact this

theorem roundTo2_a : roundTo 2 ((41999 : ℚ)/200) = 210 := by
  unfold roundTo
  rw [round_eq]
  norm_num

theorem roundTo2_b : roundTo 2 ((42001 : ℚ)/200) = 21001/100 := by
  unfold roundTo
  rw [round_eq]
  norm_num

theorem cexGroup_center : cexGroup.reprCenter = some (210, 73) := by
  show (bboxOf [((41999 : ℚ)/200, 73), ((42001 : ℚ)/200, 73)]).map bboxCenter = _
  simp only [bboxOf, List.foldl, Option.map_some]
  norm_num [bboxCenter, min_def, max_def]

theorem removePred_cexGroup : removePred cexGroup = false := by
  have hcont : isoCell.containsP 210 73 = false := by
    unfold isoCell Rect.containsP
    norm_num
  simp only [removePred, cexGroup_center, hcont, Bool.and_false]

theorem removePred_cexGroup' : removePred cexGroup' = true := by
  have hcenter : cexGroup'.reprCenter = some (42001/200, 73) := by
    show (bboxOf [((210 : ℚ), 73), ((21001 : ℚ)/100, 73)]).map bboxCenter = _
    simp only [bboxOf, List.foldl, Option.map_some]
    norm_num [bboxCenter, min_def, max_def]
  have hcont : isoCell.containsP (42001/200) 73 = true := by
    unfold isoCell Rect.containsP
    norm_num
  have hcls : isHiddenClass "hard_hidden" = true := by decide
  have hstep : removePred cexGroup' =
      (isHiddenClass cexGroup'.cls && isoCell.containsP (42001/200) 73) := by
    unfold removePred
    rw [hcenter]
  rw [hstep, hcont, Bool.and_true]
  exact hcls

theorem profileFor_hard_hidden :
    profileFor "hard_hidden" =
      some [("stroke-width", "0.20"), ("stroke", "#333"), ("stroke-dasharray", "3,1.5")] := by
  decide

theorem tier_cexDoc : postprocessMandatory cexDoc = [cexGroup'] := by
  have h1 : remove_iso_hidden cexDoc = cexDoc := by
    simp [remove_iso_hidden, cexDoc, removePred_cexGroup]
  have hne : (("hard_hidden" : String) == "general-notes") = false := by decide
  unfold postprocessMandatory
  rw [h1]
  show round_coordinates (rewrap_notes (normalize_strokes [cexGroup])) = _
  have h2 : normalize_strokes [cexGroup] =
      [⟨"hard_hidden",
        [("stroke-width", "0.20"), ("stroke", "#333"), ("stroke-dasharray", "3,1.5")],
        [⟨[((41999 : ℚ)/200, 73), ((42001 : ℚ)/200, 73)]⟩], []⟩] := by
    simp [normalize_strokes, cexGroup, normGroup, profileFor_hard_hidden, setAttrs]
  rw [h2]
  have h3 : rewrap_notes [⟨"hard_hidden",
      [("stroke-width", "0.20"), ("stroke", "#333"), ("stroke-dasharray", "3,1.5")],
      [⟨[((41999 : ℚ)/200, 73), ((42001 : ℚ)/200, 73)]⟩], []⟩] =
      [⟨"hard_hidden",
        [("stroke-width", "0.20"), ("stroke", "#333"), ("stroke-dasharray", "3,1.5")],
        [⟨[((41999 : ℚ)/200, 73), ((42001 : ℚ)/200, 73)]⟩], []⟩] := by
    simp [rewrap_notes, rewrapGroup, hne]
  rw [h3]
  simp [round_coordinates, roundGroup, roundPath, roundPt, roundText, cexGroup',
    roundTo2_a, roundTo2_b, roundTo2_73]

theorem tier_cexGroup' : postprocessMandatory [cexGroup'] = [] := by
  have h1 : remove_iso_hidden [cexGroup'] = [] := by
    simp [remove_iso_hidden, removePred_cexGroup']
  unfold postprocessMandatory
  rw [h1]
  rfl

/-- C2: the claim as stated is false — on a document whose coordinates are
not yet at the fixed precision, coordinate rounding can move a surviving
hidden-line group's representative centre across the isometric cell
boundary, so a second run of the mandatory tier removes a group the first
run kept. -/
theorem mandatory_tier_not_idempotent :
    ¬ (postprocessMandatory (postprocessMandatory cexDoc) = postprocessMandatory cexDoc) := by
  rw [tier_cexDoc, tier_cexGroup']
  simp

/-- C2 (amended): each of the four mandatory rules is individually
idempotent on every document, and the full mandatory tier applied twice
equals the tier applied once on every document whose numeric coordinates
are already at the fixed two-decimal precision. -/
theorem mandatory_tier_idempotent (d : Doc) :
    (remove_iso_hidden (remove_iso_hidden d) = remove_iso_hidden d
      ∧ normalize_strokes (normalize_strokes d) = normalize_strokes d
      ∧ rewrap_notes (rewrap_notes d) = rewrap_notes d
      ∧ round_coordinates (round_coordinates d) = round_coordinates d)
    ∧ (docRounded d = true →
        postprocessMandatory (postprocessMandatory d) = postprocessMandatory d) :=
  ⟨⟨remove_iso_hidden_idem d, normalize_strokes_idem d, rewrap_notes_idem d,
    round_coordinates_idem d⟩,
   postprocessMandatory_idem_of_rounded⟩

def roundedWitnessDoc : Doc := [⟨"hard_hidden", [], [⟨[((210 : ℚ), 73)]⟩], []⟩]

/-! ## Drawing plan -/

/-- A dimension intent of the drawing plan. -/
structure DimIntent where
  id : String
  feature : String
  view : String
  style : String
  required : Bool
  priority : ℕ
  value_mm : Option ℚ
  deriving DecidableEq

/-- The drawing plan fields the repair/scoring stages consume. -/
structure Plan where
  part_type : Option String
  dim_intents : List DimIntent
  deriving DecidableEq

/-! ## Quality Scorer

Modelled from the spec: the QA scorer (`qa_scorer.py` is specified by the
design documents; the script itself is not in the source tree).  Layout
metrics are plan-independent; intent metrics require a plan and evaluate to
their neutral "not applicable" value when none is supplied. -/

/-- View cell lookup for a point (strict interior; an edge point belongs to
no cell). -/
def cellOf (c : ℚ × ℚ) : Option String :=
  if topCell.containsP c.1 c.2 then some "top"
  else if isoCell.containsP c.1 c.2 then some "iso"
  else if frontCell.containsP c.1 c.2 then some "front"
  else if rightCell.containsP c.1 c.2 then some "right"
  else none

/-- View a group belongs to, via its representative centre. -/
def groupView (g : GroupElem) : Option String :=
  match g.reprCenter with
  | none => none
  | some c => cellOf c

def cellRect (v : String) : Option Rect :=
  if v == "top" then some topCell
  else if v == "iso" then some isoCell
  else if v == "front" then some frontCell
  else if v == "right" then some rightCell
  else none

/-- Bounding box over all of a group's path coordinates. -/
def groupBBox (g : GroupElem) : Option (ℚ × ℚ × ℚ × ℚ) :=
  bboxOf (flatMapL (fun p => p.pts) g.paths)

def count_iso_hidden (d : Doc) : ℕ := (d.filter removePred).length

structure OverflowDetail where
  view : String
  cls : String
  deriving DecidableEq

def bboxInside (b : ℚ × ℚ × ℚ × ℚ) (r : Rect) : Bool :=
  decide (r.x ≤ b.1) && decide (b.2.2.1 ≤ r.x + r.w) &&
  decide (r.y ≤ b.2.1) && decide (b.2.2.2 ≤ r.y + r.h)

/-- Per-view geometry escaping its cell rectangle. -/
def detect_overflow (d : Doc) : List OverflowDetail :=
  d.foldr
    (fun g acc =>
      match groupView g, groupBBox g with
      | some v, some b =>
        match cellRect v with
        | some r => if bboxInside b r then acc else ⟨v, g.cls⟩ :: acc
        | none => acc
      | _, _ => acc) []

def overflow_count (d : Doc) : ℕ := (detect_overflow d).length

/-- Approximate text bounding box: monospaced width `chars * fontSize * 0.55`. -/
def textBBox (t : TextElem) : ℚ × ℚ × ℚ × ℚ :=
  (t.x, t.y - t.fontSize, t.x + (lineChars t.content : ℚ) * t.fontSize * 11 / 20, t.y)

def interLen (a1 a2 b1 b2 : ℚ) : ℚ := max 0 (min a2 b2 - max a1 b1)

def boxArea (b : ℚ × ℚ × ℚ × ℚ) : ℚ := (b.2.2.1 - b.1) * (b.2.2.2 - b.2.1)

def interArea (a b : ℚ × ℚ × ℚ × ℚ) : ℚ :=
  interLen a.1 a.2.2.1 b.1 b.2.2.1 * interLen a.2.1 a.2.2.2 b.2.1 b.2.2.2

/-- Intersection-over-union above the 0.1 threshold (without division:
`inter / union > 1/10 ↔ 10 * inter > union`). -/
def iouGTtenth (a b : ℚ × ℚ × ℚ × ℚ) : Bool :=
  decide (10 * interArea a b > boxArea a + boxArea b - interArea a b)

def countPairs {α : Type} (f : α → α → Bool) : List α → ℕ
  | [] => 0
  | x :: rest => (rest.filter (f x)).length + countPairs f rest

/-- Overlapping text pairs, compared only within the same group. -/
def text_overlap_pairs (d : Doc) : ℕ :=
  (d.map (fun g => countPairs (fun t1 t2 => iouGTtenth (textBBox t1) (textBBox t2)) g.texts)).sum

def isDimClass (c : String) : Bool := startsWithL c "dimensions-"

def isVisibleClass (c : String) : Bool := endsWithL c "_visible"

/-- Dimension-text / shape-geometry overlapping pairs. -/
def dim_overlap_pairs (d : Doc) : ℕ :=
  (flatMapL (fun g => g.texts) (d.filter (fun g => isDimClass g.cls))).foldr
    (fun t acc =>
      acc + ((d.filter (fun g => isVisibleClass g.cls)).filter
        (fun g =>
          match groupBBox g with
          | some b => decide (0 < interArea (textBBox t) b)
          | none => false)).length) 0

/-- General notes running into the title-block region (`y > 247`). -/
def notes_overflow (d : Doc) : Bool :=
  d.any (fun g => g.cls == "general-notes" &&
    (match g.texts.getLast? with
     | some t => decide (t.y > 247)
     | none => false))

/-- Leader polylines with a degenerate anchor (start = end). -/
def gdt_unanchored (d : Doc) : ℕ :=
  (d.filter (fun g => g.cls == "gdt-leader" &&
    (match g.paths with
     | [] => false
     | p :: _ =>
       match p.pts with
       | [] => false
       | q :: _ => p.pts.getLast? == some q))).length

def iso_path_count (d : Doc) : ℕ :=
  ((d.filter (fun g => groupView g == some "iso")).map (fun g => g.paths.length)).sum

def dense_iso (d : Doc) : Bool := decide (800 < iso_path_count d)

def lookupAttr : List (String × String) → String → Option String
  | [], _ => none
  | (k, v) :: rest, key => if k == key then some v else lookupAttr rest key

/-- A group disagreeing with its profile's stroke attributes. -/
def strokeViolation (g : GroupElem) : Bool :=
  match profileFor g.cls with
  | none => false
  | some upd => upd.any (fun kv => !(lookupAttr g.stroke kv.1 == some kv.2))

def stroke_violations (d : Doc) : ℕ := (d.filter strokeViolation).length

/-- More than five decimal places. -/
def highPrec (q : ℚ) : Bool := decide ((q * 100000).den ≠ 1)

def allCoords (d : Doc) : List ℚ :=
  flatMapL
    (fun g =>
      flatMapL (fun p => flatMapL (fun q => [q.1, q.2]) p.pts) g.paths ++
      flatMapL (fun t => [t.x, t.y]) g.texts) d

def float_precision_count (d : Doc) : ℕ := ((allCoords d).filter highPrec).length

/-! ### Intent metrics (plan-dependent) -/

def digitVal (ch : Char) : Option ℕ :=
  List.lookup ch
    [('0', 0), ('1', 1), ('2', 2), ('3', 3), ('4', 4),
     ('5', 5), ('6', 6), ('7', 7), ('8', 8), ('9', 9)]

def hasDigit (w : String) : Bool := w.data.any (fun ch => (digitVal ch).isSome)

/-- Style-specific pattern matching of an intent against a rendered word. -/
def wordMatchesStyle (style : String) (w : String) : Bool :=
  if style == "diameter" then (startsWithL w "⌀" || startsWithL w "Ø") && hasDigit w
  else if style == "radius" then startsWithL w "R" && hasDigit w
  else if style == "callout" then startsWithL w "C" && hasDigit w
  else if style == "note" then endsWithL w "x" && hasDigit w
  else hasDigit w

/-- Texts rendered in a view (the reserved "notes" view maps to the
general-notes groups). -/
def textsForView (d : Doc) (v : String) : List TextElem :=
  if v == "notes" then flatMapL (fun g => g.texts) (d.filter (fun g => g.cls == "general-notes"))
  else flatMapL (fun g => g.texts) (d.filter (fun g => groupView g == some v))

def intentMatched (d : Doc) (it : DimIntent) : Bool :=
  (textsForView d it.view).any (fun t => t.content.any (wordMatchesStyle it.style))

def missingRequired (d : Doc) (p : Plan) : List DimIntent :=
  (p.dim_intents.filter (fun it => it.required)).filter (fun it => !intentMatched d it)

/-- Required-dimension-presence miss count; 0 (not applicable) without a plan. -/
def dim_completeness_missing (d : Doc) : Option Plan → ℕ
  | none => 0
  | some p => (missingRequired d p).length

/-- Ids of the missing required intents; empty without a plan. -/
def required_presence_missing_ids (d : Doc) : Option Plan → List String
  | none => []
  | some p => (missingRequired d p).map (fun it => it.id)

def viewNumericWords (d : Doc) (v : String) : List String :=
  flatMapL (fun t => t.content.filter hasDigit) (textsForView d v)

def sharedCount (l1 l2 : List String) : ℕ := (l1.filter (fun w => l2.contains w)).length

/-- Same numeric value repeated across different views, judged against the
plan's dimensioning parameters; 0 (not applicable) without a plan. -/
def dim_redundancy (d : Doc) : Option Plan → ℕ
  | none => 0
  | some _ =>
    let f := viewNumericWords d "front"
    let t := viewNumericWords d "top"
    let r := viewNumericWords d "right"
    let i := viewNumericWords d "iso"
    sharedCount f t + sharedCount f r + sharedCount f i +
    sharedCount t r + sharedCount t i + sharedCount r i

def dimStartPoints (d : Doc) : List (ℚ × ℚ) :=
  flatMapL (fun g => g.paths.filterMap (fun p => p.pts.head?))
    (d.filter (fun g => isDimClass g.cls))

/-- Extension-line origins scattered over three or more distinct start
points, judged against the plan's datum scheme; false (not applicable)
without a plan. -/
def datum_incoherent (d : Doc) : Option Plan → Bool
  | none => false
  | some _ => decide (3 ≤ (dimStartPoints d).dedup.length)

/-- Some required intent's target view renders no text at all; false (not
applicable) without a plan. -/
def view_coverage_uncovered (d : Doc) : Option Plan → Bool
  | none => false
  | some p =>
    (p.dim_intents.filter (fun it => it.required && !(it.view == "notes"))).any
      (fun it => (textsForView d it.view).isEmpty)

def noteGroups (d : Doc) : Doc := d.filter (fun g => g.cls == "general-notes")

def adjacentGapViolations : List TextElem → ℕ
  | t1 :: t2 :: rest =>
    (if decide (t2.y - t1.y < 7/2) || decide (9/2 < t2.y - t1.y) then 1 else 0) +
      adjacentGapViolations (t2 :: rest)
  | _ => 0

/-- Notes-convention violations: wrong left margin, line gap outside
3.5–4.5 mm, or over-wide lines. -/
def note_convention (d : Doc) : ℕ :=
  (flatMapL (fun g => g.texts.filter (fun t => !(t.x == 19))) (noteGroups d)).length +
  (noteGroups d).foldr (fun g acc => adjacentGapViolations g.texts + acc) 0 +
  (flatMapL (fun g => g.texts.filter (fun t => !(fitsLine t.content))) (noteGroups d)).length

/-- Presence of the injected virtual PCD circle; only evaluated when the
plan requires a PCD intent, `none` (not applicable) otherwise. -/
def virtual_pcd_present (d : Doc) : Option Plan → Option Bool
  | none => none
  | some p =>
    if p.dim_intents.any (fun it => it.id == "PCD" && it.required) then
      some (d.any (fun g => g.cls == "virtual-pcd"))
    else none

def leadingNat (cs : List Char) : Option ℕ :=
  let ds := cs.takeWhile (fun c => (digitVal c).isSome)
  if ds.isEmpty then none
  else some (ds.foldl (fun acc c => acc * 10 + (digitVal c).getD 0) 0)

/-- Bolt-count note words disagreeing with the plan's `BOLT_COUNT` value;
0 (not applicable) without a plan. -/
def note_semantic_mismatch (d : Doc) : Option Plan → ℕ
  | none => 0
  | some p =>
    match p.dim_intents.find? (fun it => it.id == "BOLT_COUNT") with
    | none => 0
    | some it =>
      match it.value_mm with
      | none => 0
      | some q =>
        ((flatMapL (fun t => t.content.filter (fun w => endsWithL w "x" && hasDigit w))
            (textsForView d "notes")).filter
          (fun w => !(match leadingNat w.data with
            | some n => ((n : ℚ) == q)
            | none => false))).length

/-! ### Score aggregation -/

/-- The full metric battery. -/
structure Metrics where
  iso_hidden_count : ℕ
  overflow_count : ℕ
  text_overlap_pairs : ℕ
  dim_overlap_pairs : ℕ
  notes_overflow : Bool
  gdt_unanchored : ℕ
  dense_iso : Bool
  stroke_violations : ℕ
  float_precision_count : ℕ
  dim_completeness_missing : ℕ
  dim_redundancy : ℕ
  datum_incoherent : Bool
  view_coverage_uncovered : Bool
  note_convention : ℕ
  virtual_pcd_present : Option Bool
  note_semantic_mismatch : ℕ
  deriving DecidableEq

/-- Deductions from the plan-independent layout metrics. -/
def layoutDeductions (m : Metrics) : ℤ :=
  5 * m.iso_hidden_count + 10 * m.overflow_count + 2 * m.text_overlap_pairs +
  2 * m.dim_overlap_pairs + (if m.notes_overflow then 15 else 0) +
  3 * m.gdt_unanchored + (if m.dense_iso then 5 else 0) +
  m.stroke_violations + ((min (m.float_precision_count / 10) 5 : ℕ) : ℤ) +
  ((min m.note_convention 3 : ℕ) : ℤ)

/-- Deductions from the plan-requiring intent metrics (each is zero when
its metric is not applicable). -/
def intentDeductions (m : Metrics) : ℤ :=
  5 * m.dim_completeness_missing +
  2 * m.dim_redundancy + (if m.datum_incoherent then 3 else 0) +
  (if m.view_coverage_uncovered then 5 else 0) +
  (if m.virtual_pcd_present == some false then 5 else 0) +
  3 * m.note_semantic_mismatch

/-- Modelled from the spec: `compute_score` — 100 minus the fixed per-metric
deductions, clamped below at 0. -/
def compute_score (m : Metrics) : ℤ :=
  max (100 - (layoutDeductions m + intentDeductions m)) 0

/-- The metric battery over a document and an optional plan. -/
def computeMetrics (d : Doc) (p? : Option Plan) : Metrics :=
  { iso_hidden_count := count_iso_hidden d
    overflow_count := overflow_count d
    text_overlap_pairs := text_overlap_pairs d
    dim_overlap_pairs := dim_overlap_pairs d
    notes_overflow := notes_overflow d
    gdt_unanchored := gdt_unanchored d
    dense_iso := dense_iso d
    stroke_violations := stroke_violations d
    float_precision_count := float_precision_count d
    dim_completeness_missing := dim_completeness_missing d p?
    dim_redundancy := dim_redundancy d p?
    datum_incoherent := datum_incoherent d p?
    view_coverage_uncovered := view_coverage_uncovered d p?
    note_convention := note_convention d
    virtual_pcd_present := virtual_pcd_present d p?
    note_semantic_mismatch := note_semantic_mismatch d p? }

/-- The aggregate QA score of a document under an optional plan. -/
def qaScore (d : Doc) (p? : Option Plan) : ℤ := compute_score (computeMetrics d p?)

theorem ite_nonneg_int (b : Bool) (x : ℤ) (h : 0 ≤ x) : 0 ≤ (if b = true then x else 0) := by
  split
  · exact h
  · exact le_refl 0

theorem layoutDeductions_nonneg (m : Metrics) : 0 ≤ layoutDeductions m := by
  unfold layoutDeductions
  have h1 : (0 : ℤ) ≤ if m.notes_overflow = true then 15 else 0 := by split <;> norm_num
  have h2 : (0 : ℤ) ≤ if m.dense_iso = true then 5 else 0 := by split <;> norm_num
  positivity

theorem intentDeductions_nonneg (m : Metrics) : 0 ≤ intentDeductions m := by
  unfold intentDeductions
  have h1 : (0 : ℤ) ≤ if m.view_coverage_uncovered = true then 5 else 0 := by
    split <;> norm_num
  have h2 : (0 : ℤ) ≤ if (m.virtual_pcd_present == some false) = true then 5 else 0 := by
    split <;> norm_num
  have h3 : (0 : ℤ) ≤ if m.datum_incoherent = true then 3 else 0 := by split <;> norm_num
  positivity

theorem compute_score_bounds (m : Metrics) : 0 ≤ compute_score m ∧ compute_score m ≤ 100 := by
  constructor
  · exact le_max_right _ _
  · apply max_le
    · have := add_nonneg (layoutDeductions_nonneg m) (intentDeductions_nonneg m)
      omega
    · norm_num

/-- C1: for every input document and every plan (including no plan), the
aggregate score starts at 100, only nonnegative per-metric deductions are
subtracted, and the result is clamped below at 0, so `0 ≤ score ≤ 100`. -/
theorem qaScore_bounds (d : Doc) (p? : Option Plan) :
    0 ≤ qaScore d p? ∧ qaScore d p? ≤ 100 :=
  compute_score_bounds (computeMetrics d p?)

/-- C3: scoring without a plan is deterministic, every intent-dependent
metric evaluates to its "not applicable" sentinel (0 / empty / false /
`none`), the intent deductions vanish, and the score is exactly the
layout-only score — a missing plan is never treated as a failure. -/
theorem qaScore_plan_absence_neutral (d : Doc) :
    qaScore d none = qaScore d none
    ∧ dim_completeness_missing d none = 0
    ∧ required_presence_missing_ids d none = []
    ∧ dim_redundancy d none = 0
    ∧ datum_incoherent d none = false
    ∧ view_coverage_uncovered d none = false
    ∧ virtual_pcd_present d none = none
    ∧ note_semantic_mismatch d none = 0
    ∧ intentDeductions (computeMetrics d none) = 0
    ∧ qaScore d none = max (100 - layoutDeductions (computeMetrics d none)) 0 := by
  have hint : intentDeductions (computeMetrics d none) = 0 := by
    unfold intentDeductions computeMetrics
    simp [dim_completeness_missing, dim_redundancy, datum_incoherent,
      view_coverage_uncovered, virtual_pcd_present, note_semantic_mismatch]
  refine ⟨rfl, rfl, rfl, rfl, rfl, rfl, rfl, rfl, hint, ?_⟩
  unfold qaScore compute_score
  rw [hint, add_zero]

/-! ## JSON/TOML value model

Generic data values as the config loader and TOML patching see them: the
JavaScript distinction between plain objects, arrays, and leaf values
drives `deepMerge` and `updateDimIntent`. -/

inductive JVal where
  | null : JVal
  | bool (b : Bool) : JVal
  | num (q : ℚ) : JVal
  | str (s : String) : JVal
  | arr (elems : List JVal) : JVal
  | obj (fields : List (String × JVal)) : JVal

/-- Property lookup on an object's field list (first occurrence). -/
def getKey : List (String × JVal) → String → Option JVal
  | [], _ => none
  | (k, v) :: rest, key => if k == key then some v else getKey rest key

/-- Property assignment: overwrite in place, or append a new key. -/
def setKey : List (String × JVal) → String → JVal → List (String × JVal)
  | [], k, v => [(k, v)]
  | (k', v') :: rest, k, v =>
    if k' == k then (k, v) :: rest else (k', v') :: setKey rest k v

theorem getKey_setKey_same (l : List (String × JVal)) (k : String) (v : JVal) :
    getKey (setKey l k v) k = some v := by
  induction l with
  | nil => simp [setKey, getKey]
  | cons kv rest ih =>
    rcases kv with ⟨k', v'⟩
    by_cases h : k' = k
    · simp [setKey, getKey, h]
    · simp [setKey, getKey, h, ih]

theorem getKey_setKey_other (l : List (String × JVal)) (k k' : String) (v : JVal)
    (h : ¬(k' = k)) : getKey (setKey l k v) k' = getKey l k' := by
  have hne : ¬(k = k') := fun hh => h hh.symm
  induction l with
  | nil => simp [setKey, getKey, hne]
  | cons kv rest ih =>
    rcases kv with ⟨k0, v0⟩
    by_cases h0 : k0 = k
    · simp [setKey, getKey, h0, hne]
    · by_cases h2 : k0 = k'
      · simp [setKey, getKey, h0, h2, h]
      · simp [setKey, getKey, h0, h2, ih]

/-! ## `deepMerge` (embedded from `src/lib/config-loader.js`)

`deepMerge(base, override, depth)` walks the override's keys; when both
sides hold a plain object (not `null`, not an array) it recurses with
`depth + 1`, otherwise the override value overwrites.  `depth > 20`
throws.  The depth guard is the recursion fuel: an entry call at depth 0
has 21 levels available. -/

/-- The JavaScript "both plain objects" test:
`key in base && typeof base[key] === 'object' && base[key] !== null &&
!Array.isArray(base[key])` and the same for the override value. -/
def bothObj : Option JVal → JVal → Option (List (String × JVal) × List (String × JVal))
  | some (JVal.obj bf), JVal.obj of => some (bf, of)
  | _, _ => none

/-- One level of the merge loop; `rec` performs the nested merge at the
next depth. -/
def mergeLevel (rec : List (String × JVal) → List (String × JVal) →
    Except String (List (String × JVal)))
    (base : List (String × JVal)) :
    List (String × JVal) → Except String (List (String × JVal))
  | [] => Except.ok base
  | (k, v) :: rest =>
    match bothObj (getKey base k) v with
    | some (bf, of) =>
      match rec bf of with
      | Except.error e => Except.error e
      | Except.ok mf => mergeLevel rec (setKey base k (JVal.obj mf)) rest
    | none => mergeLevel rec (setKey base k v) rest

/-- `deepMerge` with the remaining depth budget made explicit
(fuel = 21 - depth; fuel 0 corresponds to `depth > 20` → throw). -/
def deepMergeFuel : ℕ → List (String × JVal) → List (String × JVal) →
    Except String (List (String × JVal))
  | 0, _, _ => Except.error "Config merge too deep"
  | fuel + 1, base, ov => mergeLevel (deepMergeFuel fuel) base ov

/-- `deepMerge(base, override)` as called, at depth 0. -/
def deepMerge (base ov : List (String × JVal)) : Except String (List (String × JVal)) :=
  deepMergeFuel 21 base ov

/-- Keys untouched by the override keep their base value (any nested-merge
callback). -/
theorem mergeLevel_not_mem
    (rec : List (String × JVal) → List (String × JVal) →
      Except String (List (String × JVal))) :
    ∀ (ov base m : List (String × JVal)), mergeLevel rec base ov = Except.ok m →
      ∀ k, getKey ov k = none → getKey m k = getKey base k
  | [], base, m, hok, k, _ => by
    simp only [mergeLevel] at hok
    cases hok
    rfl
  | (k0, v0) :: rest, base, m, hok, k, hk => by
    have hkk : (k0 == k) = false ∧ getKey rest k = none := by
      by_cases h : k0 = k
      · exfalso
        simp [getKey, h] at hk
      · have h' : (k0 == k) = false := by simp [h]
        refine ⟨h', ?_⟩
        simpa [getKey, h'] using hk
    have hne : ¬(k = k0) := by
      intro hh
      rw [hh] at hkk
      simp at hkk
    simp only [mergeLevel] at hok
    rcases hbo : bothObj (getKey base k0) v0 with _ | ⟨bf, of⟩
    · rw [hbo] at hok
      dsimp only at hok
      have := mergeLevel_not_mem rec rest (setKey base k0 v0) m hok k hkk.2
      rw [this, getKey_setKey_other _ _ _ _ hne]
    · rw [hbo] at hok
      dsimp only at hok
      rcases hrec : rec bf of with e | mf
      · rw [hrec] at hok
        simp at hok
      · rw [hrec] at hok
        dsimp only at hok
        have := mergeLevel_not_mem rec rest (setKey base k0 (JVal.obj mf)) m hok k hkk.2
        rw [this, getKey_setKey_other _ _ _ _ hne]

theorem getKey_eq_none_of_not_mem :
    ∀ {l : List (String × JVal)} {k : String}, k ∉ l.map Prod.fst → getKey l k = none
  | [], _, _ => rfl
  | (k0, v0) :: rest, k, h => by
    have h1 : ¬(k0 = k) := by
      intro hh
      exact h (by simp [hh])
    have h2 : k ∉ rest.map Prod.fst := fun hh => h (by simp [hh])
    simp [getKey, h1, getKey_eq_none_of_not_mem h2]

/-- For every key the override mentions: leaf/array values (and objects
overriding non-objects) replace the base value; object-over-object merges
recursively via `rec`. -/
theorem mergeLevel_override
    (rec : List (String × JVal) → List (String × JVal) →
      Except String (List (String × JVal))) :
    ∀ (ov base m : List (String × JVal)), mergeLevel rec base ov = Except.ok m →
      (ov.map Prod.fst).Nodup →
      ∀ k v, getKey ov k = some v →
        ((bothObj (getKey base k) v = none → getKey m k = some v)
        ∧ (∀ bf of, bothObj (getKey base k) v = some (bf, of) →
            ∃ mf, rec bf of = Except.ok mf ∧ getKey m k = some (JVal.obj mf)))
  | [], _, _, _, _, k, v, hkv => by simp [getKey] at hkv
  | (k0, v0) :: rest, base, m, hok, hnd, k, v, hkv => by
    simp only [List.map_cons, List.nodup_cons] at hnd
    obtain ⟨hk0notin, hndrest⟩ := hnd
    simp only [mergeLevel] at hok
    by_cases hk0 : k0 = k
    · subst hk0
      have hv : v = v0 := by
        simp [getKey] at hkv
        exact hkv.symm
      subst hv
      have hrestnone : getKey rest k0 = none := getKey_eq_none_of_not_mem hk0notin
      rcases hbo : bothObj (getKey base k0) v with _ | ⟨bf, of⟩
      · rw [hbo] at hok
        dsimp only at hok
        constructor
        · intro _
          have := mergeLevel_not_mem rec rest (setKey base k0 v) m hok k0 hrestnone
          rw [this, getKey_setKey_same]
        · intro bf of hbo'
          simp at hbo'
      · rw [hbo] at hok
        dsimp only at hok
        rcases hrec : rec bf of with e | mf
        · rw [hrec] at hok
          simp at hok
        · rw [hrec] at hok
          dsimp only at hok
          constructor
          · intro hbo'
            simp at hbo'
          · intro bf' of' hbo'
            rw [Option.some.injEq, Prod.mk.injEq] at hbo'
            obtain ⟨rfl, rfl⟩ := hbo'
            refine ⟨mf, hrec, ?_⟩
            have := mergeLevel_not_mem rec rest (setKey base k0 (JVal.obj mf)) m hok k0 hrestnone
            rw [this, getKey_setKey_same]
    · have hkv' : getKey rest k = some v := by
        have h0 : (k0 == k) = false := by simp [hk0]
        simpa [getKey, h0] using hkv
      have hne : ¬(k = k0) := fun hh => hk0 hh.symm
      rcases hbo : bothObj (getKey base k0) v0 with _ | ⟨bf, of⟩
      · rw [hbo] at hok
        dsimp only at hok
        have ih := mergeLevel_override rec rest (setKey base k0 v0) m hok hndrest k v hkv'
        rw [getKey_setKey_other _ _ _ _ hne] at ih
        exact ih
      · rw [hbo] at hok
        dsimp only at hok
        rcases hrec : rec bf of with e | mf
        · rw [hrec] at hok
          simp at hok
        · rw [hrec] at hok
          dsimp only at hok
          have ih := mergeLevel_override rec rest (setKey base k0 (JVal.obj mf)) m hok
            hndrest k v hkv'
          rw [getKey_setKey_other _ _ _ _ hne] at ih
          exact ih

/-- C6: the config/plan merge is a pure structural overlay — every key in
the override ends up carrying the override's value (plain objects merge
recursively at the next depth; arrays and scalar leaves are replaced), and
every key present only in the base is preserved unchanged, so
caller-specified fields such as `dim_intents` are never silently dropped. -/
theorem deepMerge_structural_overlay (fuel : ℕ) (base ov m : List (String × JVal))
    (hok : deepMergeFuel (fuel + 1) base ov = Except.ok m)
    (hnd : (ov.map Prod.fst).Nodup) :
    (∀ k, getKey ov k = none → getKey m k = getKey base k)
    ∧ (∀ k v, getKey ov k = some v → bothObj (getKey base k) v = none →
        getKey m k = some v)
    ∧ (∀ k v bf of, getKey ov k = some v → bothObj (getKey base k) v = some (bf, of) →
        ∃ mf, deepMergeFuel fuel bf of = Except.ok mf ∧
          getKey m k = some (JVal.obj mf)) := by
  have hok' : mergeLevel (deepMergeFuel fuel) base ov = Except.ok m := hok
  exact ⟨mergeLevel_not_mem _ _ _ _ hok',
    fun k v hkv => (mergeLevel_override _ _ _ _ hok' hnd k v hkv).1,
    fun k v bf of hkv => (mergeLevel_override _ _ _ _ hok' hnd k v hkv).2 bf of⟩

def cfgBase : List (String × JVal) :=
  [("name", JVal.str "flange"),
   ("drawing", JVal.obj [("scale", JVal.str "auto"), ("views", JVal.arr [JVal.str "front"])]),
   ("material", JVal.str "steel")]

def cfgOv : List (String × JVal) :=
  [("drawing", JVal.obj [("views", JVal.arr [JVal.str "front", JVal.str "iso"])]),
   ("dim_intents", JVal.arr [JVal.obj [("id", JVal.str "OD")]])]

def cfgMerged : List (String × JVal) :=
  [("name", JVal.str "flange"),
   ("drawing", JVal.obj [("scale", JVal.str "auto"),
                         ("views", JVal.arr [JVal.str "front", JVal.str "iso"])]),
   ("material", JVal.str "steel"),
   ("dim_intents", JVal.arr [JVal.obj [("id", JVal.str "OD")]])]

/-- Witness for C6 at a concrete config: the array is replaced, the nested
object merged, untouched base keys and the caller's `dim_intents` survive. -/
theorem deepMerge_structural_overlay_witness :
    deepMergeFuel (20 + 1) cfgBase cfgOv = Except.ok cfgMerged
    ∧ (cfgOv.map Prod.fst).Nodup
    ∧ getKey cfgMerged "name" = getKey cfgBase "name"
    ∧ getKey cfgMerged "dim_intents" =
        some (JVal.arr [JVal.obj [("id", JVal.str "OD")]]) := by
  have hok : deepMergeFuel (20 + 1) cfgBase cfgOv = Except.ok cfgMerged := rfl
  have hnd : (cfgOv.map Prod.fst).Nodup := by
    simp [cfgOv]
  obtain ⟨h1, h2, _⟩ := deepMerge_structural_overlay 20 cfgBase cfgOv cfgMerged hok hnd
  refine ⟨hok, hnd, h1 "name" rfl, h2 "dim_intents" _ rfl rfl⟩

/-! ## `updateDimIntent` (embedded from `src/lib/toml-writer.js`)

Validates the new value, navigates `data.drawing_plan.dim_intents`, patches
the first intent whose `id` matches, and only then writes the file.  All
early returns leave the file untouched.  The returned pair is
(outcome, file contents after the call). -/

/-- A JavaScript argument: a real number, `NaN`, or any non-number value
(`typeof newValue !== 'number'`). -/
inductive JsValue where
  | nan : JsValue
  | num (q : ℚ) : JsValue
  | other (v : JVal) : JsValue

structure UpdateResult where
  ok : Bool
  oldValue : Option JVal
  error : Option String

/-- A call either returns a result object or throws (e.g. `.find` on a
non-array). -/
inductive UpdOutcome where
  | ret (r : UpdateResult)
  | threw

/-- JavaScript truthiness of a data value. -/
def jTruthy : JVal → Bool
  | .null => false
  | .bool b => b
  | .num q => !(q == 0)
  | .str s => !(s == "")
  | .arr _ => true
  | .obj _ => true

/-- `d.id === dimId` for an array element `d`. -/
def intentIdMatches (dimId : String) (it : JVal) : Bool :=
  match it with
  | .obj f =>
    match getKey f "id" with
    | some (.str s) => s == dimId
    | _ => false
  | _ => false

/-- `find` the first matching intent and set its `value_mm`; returns the
old value and the updated array. -/
def updIntents (dimId : String) (nv : JVal) : List JVal → Option (Option JVal × List JVal)
  | [] => none
  | it :: rest =>
    if intentIdMatches dimId it then
      match it with
      | .obj f => some (getKey f "value_mm", JVal.obj (setKey f "value_mm" nv) :: rest)
      | _ => none
    else
      match updIntents dimId nv rest with
      | none => none
      | some (old, rest') => some (old, it :: rest')

def updateDimIntent (data : List (String × JVal)) (dimId : String) (newValue : JsValue) :
    UpdOutcome × List (String × JVal) :=
  match newValue with
  | .other _ => (.ret ⟨false, none, some "Invalid value"⟩, data)
  | .nan => (.ret ⟨false, none, some "Invalid value"⟩, data)
  | .num q =>
    if q ≤ 0 then (.ret ⟨false, none, some "value_mm must be positive"⟩, data)
    else
      match getKey data "drawing_plan" with
      | some (JVal.obj pf) =>
        match getKey pf "dim_intents" with
        | none => (.ret ⟨false, none, some "No drawing_plan.dim_intents found"⟩, data)
        | some di =>
          if jTruthy di = false then
            (.ret ⟨false, none, some "No drawing_plan.dim_intents found"⟩, data)
          else
            match di with
            | JVal.arr intents =>
              match updIntents dimId (JVal.num q) intents with
              | none => (.ret ⟨false, none, some "dim_intent not found"⟩, data)
              | some (old, intents') =>
                (.ret ⟨true, old, none⟩,
                 setKey data "drawing_plan"
                   (JVal.obj (setKey pf "dim_intents" (JVal.arr intents'))))
            | _ => (.threw, data)
      | _ => (.ret ⟨false, none, some "No drawing_plan.dim_intents found"⟩, data)

/-- A successful `updIntents` splits the array around the first matching
intent and rewrites only that intent's `value_mm` field. -/
theorem updIntents_spec (dimId : String) (nv : JVal) :
    ∀ (ints : List JVal) (old : Option JVal) (ints' : List JVal),
      updIntents dimId nv ints = some (old, ints') →
      ∃ pre f post,
        ints = pre ++ JVal.obj f :: post ∧
        (∀ it ∈ pre, intentIdMatches dimId it = false) ∧
        intentIdMatches dimId (JVal.obj f) = true ∧
        old = getKey f "value_mm" ∧
        ints' = pre ++ JVal.obj (setKey f "value_mm" nv) :: post
  | [], old, ints', h => by simp [updIntents] at h
  | it :: rest, old, ints', h => by
    simp only [updIntents] at h
    by_cases hm : intentIdMatches dimId it = true
    · rw [if_pos hm] at h
      rcases it with _ | b | q | s | es | f
      · simp [intentIdMatches] at hm
      · simp [intentIdMatches] at hm
      · simp [intentIdMatches] at hm
      · simp [intentIdMatches] at hm
      · simp [intentIdMatches] at hm
      · dsimp only at h
        rw [Option.some.injEq, Prod.mk.injEq] at h
        obtain ⟨hold, hints⟩ := h
        exact ⟨[], f, rest, by simp, by simp, hm, hold.symm, by simp [hints.symm]⟩
    · rw [if_neg hm] at h
      rcases hr : updIntents dimId nv rest with _ | ⟨o, r'⟩
      · rw [hr] at h
        simp at h
      · rw [hr] at h
        dsimp only at h
        rw [Option.some.injEq, Prod.mk.injEq] at h
        obtain ⟨hold, hints⟩ := h
        obtain ⟨pre, f, post, h1, h2, h3, h4, h5⟩ := updIntents_spec dimId nv rest o r' hr
        refine ⟨it :: pre, f, post, by simp [h1], ?_, h3, hold.symm.trans h4, by simp [hints.symm, h5]⟩
        intro x hx
        rcases List.mem_cons.mp hx with rfl | hx'
        · exact Bool.not_eq_true _ ▸ (by simpa using hm)
        · exact h2 x hx'

/-- C7: with a positive numeric value and a plan containing the intent,
`updateDimIntent` rewrites exactly that intent's `value_mm` (leaving every
other field of every intent and every other plan/file field unchanged) and
returns `{ok := true, oldValue}`; for a non-numeric, NaN or non-positive
value, or a missing plan or intent id, it returns `{ok := false, error}`
and the file on disk is not modified. -/
theorem updateDimIntent_spec (data : List (String × JVal)) (dimId : String) (q : ℚ)
    (pf : List (String × JVal)) (ints : List JVal) (old : Option JVal) (ints' : List JVal)
    (hq : 0 < q)
    (hplan : getKey data "drawing_plan" = some (JVal.obj pf))
    (hdi : getKey pf "dim_intents" = some (JVal.arr ints))
    (hupd : updIntents dimId (JVal.num q) ints = some (old, ints')) :
    (updateDimIntent data dimId (JsValue.num q) =
      (UpdOutcome.ret ⟨true, old, none⟩,
       setKey data "drawing_plan" (JVal.obj (setKey pf "dim_intents" (JVal.arr ints')))))
    ∧ (∃ pre f post,
        ints = pre ++ JVal.obj f :: post ∧
        (∀ it ∈ pre, intentIdMatches dimId it = false) ∧
        intentIdMatches dimId (JVal.obj f) = true ∧
        old = getKey f "value_mm" ∧
        ints' = pre ++ JVal.obj (setKey f "value_mm" (JVal.num q)) :: post ∧
        getKey (setKey f "value_mm" (JVal.num q)) "value_mm" = some (JVal.num q) ∧
        (∀ k, ¬(k = "value_mm") →
          getKey (setKey f "value_mm" (JVal.num q)) k = getKey f k))
    ∧ (∀ k, ¬(k = "dim_intents") →
        getKey (setKey pf "dim_intents" (JVal.arr ints')) k = getKey pf k)
    ∧ (∀ k, ¬(k = "drawing_plan") →
        getKey (setKey data "drawing_plan"
          (JVal.obj (setKey pf "dim_intents" (JVal.arr ints')))) k = getKey data k)
    ∧ (∀ v, updateDimIntent data dimId (JsValue.other v) =
        (UpdOutcome.ret ⟨false, none, some "Invalid value"⟩, data))
    ∧ (updateDimIntent data dimId JsValue.nan =
        (UpdOutcome.ret ⟨false, none, some "Invalid value"⟩, data))
    ∧ (∀ q' : ℚ, q' ≤ 0 → updateDimIntent data dimId (JsValue.num q') =
        (UpdOutcome.ret ⟨false, none, some "value_mm must be positive"⟩, data))
    ∧ (∀ data' : List (String × JVal), getKey data' "drawing_plan" = none →
        updateDimIntent data' dimId (JsValue.num q) =
          (UpdOutcome.ret ⟨false, none, some "No drawing_plan.dim_intents found"⟩, data'))
    ∧ (∀ (ints₀ : List JVal) (data₀ : List (String × JVal)) (pf₀ : List (String × JVal)),
        updIntents dimId (JVal.num q) ints₀ = none →
        getKey data₀ "drawing_plan" = some (JVal.obj pf₀) →
        getKey pf₀ "dim_intents" = some (JVal.arr ints₀) →
        updateDimIntent data₀ dimId (JsValue.num q) =
          (UpdOutcome.ret ⟨false, none, some "dim_intent not found"⟩, data₀)) := by
  have hql : ¬(q ≤ 0) := not_le.mpr hq
  refine ⟨?_, ?_, ?_, ?_, fun v => rfl, rfl, ?_, ?_, ?_⟩
  · unfold updateDimIntent
    dsimp only
    rw [if_neg hql, hplan]
    dsimp only
    rw [hdi]
    dsimp only
    rw [if_neg (by simp [jTruthy])]
    rw [hupd]
  · obtain ⟨pre, f, post, h1, h2, h3, h4, h5⟩ := updIntents_spec dimId (JVal.num q) ints old ints' hupd
    exact ⟨pre, f, post, h1, h2, h3, h4, h5, getKey_setKey_same _ _ _,
      fun k hk => getKey_setKey_other _ _ _ _ hk⟩
  · intro k hk
    exact getKey_setKey_other _ _ _ _ hk
  · intro k hk
    exact getKey_setKey_other _ _ _ _ hk
  · intro q' hq'
    unfold updateDimIntent
    dsimp only
    rw [if_pos hq']
  · intro data' hnone
    unfold updateDimIntent
    dsimp only
    rw [if_neg hql, hnone]
  · intro ints₀ data₀ pf₀ hup0 hp0 hd0
    unfold updateDimIntent
    dsimp only
    rw [if_neg hql, hp0]
    dsimp only
    rw [hd0]
    dsimp only
    rw [if_neg (by simp [jTruthy])]
    rw [hup0]

def wPlanFields : List (String × JVal) :=
  [("part_type", JVal.str "flange"),
   ("dim_intents", JVal.arr
     [JVal.obj [("id", JVal.str "OD"), ("value_mm", JVal.num 60)],
      JVal.obj [("id", JVal.str "THK"), ("value_mm", JVal.num 12)]])]

def wPlanFile : List (String × JVal) := [("drawing_plan", JVal.obj wPlanFields)]

/-- Witness for C7: patching intent `THK` from 12 to 14 succeeds, returns
the old value, and produces exactly the expected file contents. -/
theorem updateDimIntent_spec_witness :
    (0 : ℚ) < 14
    ∧ updateDimIntent wPlanFile "THK" (JsValue.num 14) =
      (UpdOutcome.ret ⟨true, some (JVal.num 12), none⟩,
       [("drawing_plan", JVal.obj
         [("part_type", JVal.str "flange"),
          ("dim_intents", JVal.arr
            [JVal.obj [("id", JVal.str "OD"), ("value_mm", JVal.num 60)],
             JVal.obj [("id", JVal.str "THK"), ("value_mm", JVal.num 14)]])])]) := by
  refine ⟨by norm_num, ?_⟩
  have h := (updateDimIntent_spec wPlanFile "THK" 14 wPlanFields
    [JVal.obj [("id", JVal.str "OD"), ("value_mm", JVal.num 60)],
     JVal.obj [("id", JVal.str "THK"), ("value_mm", JVal.num 12)]]
    (some (JVal.num 12))
    [JVal.obj [("id", JVal.str "OD"), ("value_mm", JVal.num 60)],
     JVal.obj [("id", JVal.str "THK"), ("value_mm", JVal.num 14)]]
    (by norm_num) rfl rfl rfl).1
  exact h

/-! ## `buildQaIssueReport` (embedded from the CLI orchestrator)

Normalized issue model for QA findings: one issue per overflow/overlap
detail, one for missing required dimensions, PCD absence, note-semantics
mismatch, and one per residual repair risk, with sequential zero-padded
ids and per-category/per-severity summary counts. -/

structure RiskInput where
  severity : Option String
  code : Option String
  view : Option String

/-- The fields of a parsed QA report that the issue builder reads. -/
structure QaInput where
  file : Option String
  score : Option JVal
  overflows : List (Option String)
  text_overlaps : List (Option String)
  required_missing_ids : List String
  virtual_pcd_present : Option JVal
  note_semantic_mismatch : Option JVal

def lowerChar (c : Char) : Char :=
  match List.lookup c
    [('A', 'a'), ('B', 'b'), ('C', 'c'), ('D', 'd'), ('E', 'e'), ('F', 'f'),
     ('G', 'g'), ('H', 'h'), ('I', 'i'), ('J', 'j'), ('K', 'k'), ('L', 'l'),
     ('M', 'm'), ('N', 'n'), ('O', 'o'), ('P', 'p'), ('Q', 'q'), ('R', 'r'),
     ('S', 's'), ('T', 't'), ('U', 'u'), ('V', 'v'), ('W', 'w'), ('X', 'x'),
     ('Y', 'y'), ('Z', 'z')] with
  | some l => l
  | none => c

def toLowerL (s : String) : String := String.mk (s.data.map lowerChar)

/-- `normalizeSeverity`: error/high → high, warning/medium → medium,
anything else → low. -/
def normalizeSeverity (raw : Option String) : String :=
  let sev := toLowerL (raw.getD "")
  if sev == "error" || sev == "high" then "high"
  else if sev == "warning" || sev == "medium" then "medium"
  else "low"

structure Issue where
  id : String
  category : String
  severity : String
  rule_id : String
  locView : String

/-- The issues in emission order, before ids are assigned:
(category, severity, rule_id, view). -/
def preIssues (qa : QaInput) (rr : Option (List RiskInput)) :
    List (String × String × String × String) :=
  qa.overflows.map (fun v => ("layout", "medium", "layout_overflow", v.getD "unknown"))
  ++ qa.text_overlaps.map (fun v => ("readability", "medium", "text_overlap", v.getD "unknown"))
  ++ (if 0 < qa.required_missing_ids.length then
        [("completeness", "high", "required_dim_missing", "page")] else [])
  ++ (match qa.virtual_pcd_present with
      | some (JVal.bool false) => [("standards", "medium", "virtual_pcd_missing", "front")]
      | _ => [])
  ++ (match qa.note_semantic_mismatch with
      | some (JVal.num q) =>
        if 0 < q then [("standards", "medium", "note_semantic_mismatch", "notes")] else []
      | _ => [])
  ++ (match rr with
      | none => []
      | some risks => risks.map (fun r =>
          ("repair", normalizeSeverity r.severity, r.code.getD "repair_risk", r.view.getD "page")))

def digitCharOf (d : ℕ) : Char :=
  match List.lookup d
    [(0, '0'), (1, '1'), (2, '2'), (3, '3'), (4, '4'),
     (5, '5'), (6, '6'), (7, '7'), (8, '8'), (9, '9')] with
  | some c => c
  | none => '0'

def natDigitsAux : ℕ → ℕ → List Char
  | 0, _ => []
  | fuel + 1, n =>
    if n < 10 then [digitCharOf n]
    else natDigitsAux fuel (n / 10) ++ [digitCharOf (n % 10)]

def natToStr (n : ℕ) : String := String.mk (natDigitsAux (n + 1) n)

/-- `String(n).padStart(3, '0')`. -/
def pad3 (n : ℕ) : String :=
  String.mk (List.replicate (3 - (natToStr n).data.length) '0' ++ (natToStr n).data)

def issueId (n : ℕ) : String := "ISSUE_" ++ pad3 n

/-- `seq++` id assignment in emission order. -/
def assignIds : ℕ → List (String × String × String × String) → List Issue
  | _, [] => []
  | k, (c, s, r, v) :: rest => ⟨issueId k, c, s, r, v⟩ :: assignIds (k + 1) rest

/-- The object `{key: count}` built by the summary fold. -/
def countsOf (l : List String) : List (String × ℕ) :=
  l.dedup.map (fun c => (c, l.count c))

structure IssueSummary where
  count : ℕ
  by_category : List (String × ℕ)
  by_severity : List (String × ℕ)

structure IssueReport where
  schema_version : String
  file : Option String
  score : Option JVal
  issues : List Issue
  summary : IssueSummary

def buildQaIssueReport (qa : QaInput) (rr : Option (List RiskInput)) : IssueReport :=
  let issues := assignIds 1 (preIssues qa rr)
  { schema_version := "0.1"
    file := qa.file
    score := qa.score
    issues := issues
    summary :=
      { count := issues.length
        by_category := countsOf (issues.map (fun i => i.category))
        by_severity := countsOf (issues.map (fun i => i.severity)) } }

theorem countsOf_sum (l : List String) : ((countsOf l).map Prod.snd).sum = l.length := by
  unfold countsOf
  rw [List.map_map]
  exact l.sum_map_count_dedup_eq_length

def sevOK (s : String) : Bool := s == "high" || s == "medium" || s == "low"

theorem normalizeSeverity_ok (raw : Option String) : sevOK (normalizeSeverity raw) = true := by
  unfold normalizeSeverity
  dsimp only
  split
  · rfl
  · split
    · rfl
    · rfl

theorem assignIds_length : ∀ (k : ℕ) (L : List (String × String × String × String)),
    (assignIds k L).length = L.length
  | _, [] => rfl
  | k, (c, s, r, v) :: rest => by
    simp [assignIds, assignIds_length (k + 1) rest]

theorem assignIds_ids : ∀ (k : ℕ) (L : List (String × String × String × String)),
    (assignIds k L).map (fun i => i.id) =
      (List.range L.length).map (fun j => issueId (k + j))
  | _, [] => rfl
  | k, (c, s, r, v) :: rest => by
    show issueId k :: (assignIds (k + 1) rest).map (fun i => i.id) = _
    rw [assignIds_ids (k + 1) rest]
    rw [List.length_cons, List.range_succ_eq_map, List.map_cons, List.map_map]
    refine congrArg₂ _ (by rw [Nat.add_zero]) ?_
    apply List.map_congr_left
    intro j _
    exact congrArg issueId (by omega)

theorem assignIds_sev : ∀ (k : ℕ) (L : List (String × String × String × String)),
    (assignIds k L).all (fun i => sevOK i.severity) = L.all (fun p => sevOK p.2.1)
  | _, [] => rfl
  | k, (c, s, r, v) :: rest => by
    simp only [assignIds, List.all_cons, assignIds_sev (k + 1) rest]

theorem preIssues_sev (qa : QaInput) (rr : Option (List RiskInput)) :
    (preIssues qa rr).all (fun p => sevOK p.2.1) = true := by
  unfold preIssues
  simp only [List.all_append, Bool.and_eq_true]
  refine ⟨⟨⟨⟨⟨?_, ?_⟩, ?_⟩, ?_⟩, ?_⟩, ?_⟩
  · rw [List.all_eq_true]
    intro p hp
    rcases List.mem_map.mp hp with ⟨v, _, rfl⟩
    rfl
  · rw [List.all_eq_true]
    intro p hp
    rcases List.mem_map.mp hp with ⟨v, _, rfl⟩
    rfl
  · split
    · rfl
    · rfl
  · split
    · rfl
    · rfl
  · split
    · split
      · rfl
      · rfl
    · rfl
  · rcases rr with _ | risks
    · rfl
    · dsimp only
      rw [List.all_eq_true]
      intro p hp
      rcases List.mem_map.mp hp with ⟨r, _, rfl⟩
      exact normalizeSeverity_ok r.severity

/-! ## The draw pipeline's QA stages (embedded from the CLI orchestrator)

`cmdDraw` runs, per SVG: a QA pass on the raw document (unless `--raw` or
`--no-score`), the post-processor (unless `--raw`), a QA pass on the
repaired document (unless `--no-score`), then merges a `qa_diff` object
into the persisted repair report.  The external QA scorer exits non-zero
when `--fail-under` is given and the score is below the floor (modelled
from the spec), in which case the orchestrator aborts before any merge. -/

/-- A QA report as serialized by the scorer. -/
structure QaRep where
  score : JVal
  metrics : List (String × JVal)

/-- The metric record as it appears in the QA report JSON. -/
def metricsJson (m : Metrics) : List (String × JVal) :=
  [("iso_hidden_count", JVal.num m.iso_hidden_count),
   ("overflow_count", JVal.num m.overflow_count),
   ("text_overlap_pairs", JVal.num m.text_overlap_pairs),
   ("dim_overlap_pairs", JVal.num m.dim_overlap_pairs),
   ("notes_overflow", JVal.bool m.notes_overflow),
   ("gdt_unanchored", JVal.num m.gdt_unanchored),
   ("dense_iso", JVal.bool m.dense_iso),
   ("stroke_violations", JVal.num m.stroke_violations),
   ("float_precision_count", JVal.num m.float_precision_count),
   ("dim_completeness", JVal.num m.dim_completeness_missing),
   ("dim_redundancy", JVal.num m.dim_redundancy),
   ("datum_coherence", JVal.bool m.datum_incoherent),
   ("view_coverage", JVal.bool m.view_coverage_uncovered),
   ("note_convention", JVal.num m.note_convention),
   ("virtual_pcd_present",
     match m.virtual_pcd_present with
     | none => JVal.null
     | some b => JVal.bool b),
   ("note_semantic_mismatch", JVal.num m.note_semantic_mismatch)]

def qaReportOf (d : Doc) (p? : Option Plan) : QaRep :=
  { score := JVal.num ((qaScore d p? : ℤ) : ℚ),
    metrics := metricsJson (computeMetrics d p?) }

/-- `typeof v === 'number' ? v : 0`. -/
def jnumOr0 : JVal → ℚ
  | JVal.num q => q
  | _ => 0

/-- The same for a possibly-absent property. -/
def numOr0 : Option JVal → ℚ
  | some (JVal.num q) => q
  | _ => 0

/-- `(score || 0)` for a numeric-or-null score. -/
def scoreOr0 : JVal → ℚ
  | JVal.num q => q
  | _ => 0

structure QaGate where
  fail_under : Option ℤ
  passed : Bool
  deriving DecidableEq

/-- The `qa_diff` object merged into the repair report. -/
structure QaDiff where
  beforeRep : QaRep
  afterRep : QaRep
  deltaScore : ℚ
  deltaMetrics : List (String × ℚ)
  gate : QaGate

def lookupQ : List (String × ℚ) → String → Option ℚ
  | [], _ => none
  | (k, v) :: rest, key => if k == key then some v else lookupQ rest key

def computeQaDiff (qb qa : QaRep) (failUnder : Option ℤ) : QaDiff :=
  { beforeRep := qb
    afterRep := qa
    deltaScore := scoreOr0 qa.score - scoreOr0 qb.score
    deltaMetrics :=
      qb.metrics.map (fun kv => (kv.1, numOr0 (getKey qa.metrics kv.1) - jnumOr0 kv.2))
    gate :=
      { fail_under := failUnder
        passed :=
          match failUnder with
          | none => true
          | some n => decide ((n : ℚ) ≤ scoreOr0 qa.score) } }

/-- The `plan` sub-object injected into the repair report. -/
structure PlanMeta where
  used : Bool
  template : Option String
  part_type : Option String
  deriving DecidableEq

def planMetaOf : Option Plan → PlanMeta
  | some p =>
    { used := true, template := some (p.part_type.getD "unknown"),
      part_type := some (p.part_type.getD "unknown") }
  | none => { used := false, template := none, part_type := none }

structure RepairReport where
  rules : List (String × JVal)
  plan : PlanMeta
  qa_diff : Option QaDiff

/-- The post-processor's per-rule counts. -/
def repairRules (d : Doc) : List (String × JVal) :=
  [("iso_hidden_removed", JVal.num ((d.length - (remove_iso_hidden d).length : ℕ) : ℚ)),
   ("strokes_normalized",
     JVal.num (((d.filter (fun g => (profileFor g.cls).isSome)).length : ℕ) : ℚ)),
   ("coords_rounded", JVal.num ((float_precision_count d : ℕ) : ℚ))]

/-- Modelled from the spec: the scorer CLI exits 1 when `--fail-under N` is
given and the score falls below N. -/
def qaScorerExit (score : ℤ) (failUnder : Option ℤ) : ℕ :=
  match failUnder with
  | none => 0
  | some n => if score < n then 1 else 0

structure DrawFlags where
  raw : Bool
  noScore : Bool
  failUnder : Option ℤ

structure DrawOutcome where
  qaBeforeRep : Option QaRep
  repairedDoc : Doc
  qaAfterRep : Option QaRep
  repairReport : Option RepairReport
  exitNonZero : Bool

/-- The QA portion of `cmdDraw` for one SVG: before-score, repair, plan
metadata injection, after-score, `qa_diff` merge, gate. -/
def cmdDrawQa (fl : DrawFlags) (d : Doc) (p? : Option Plan) : DrawOutcome :=
  let qaBefore : Option QaRep :=
    if !fl.noScore && !fl.raw then some (qaReportOf d p?) else none
  let repaired := if fl.raw then d else postprocessMandatory d
  let rr0 : Option RepairReport :=
    if fl.raw then none
    else some { rules := repairRules d, plan := planMetaOf p?, qa_diff := none }
  if fl.noScore then
    { qaBeforeRep := qaBefore, repairedDoc := repaired, qaAfterRep := none,
      repairReport := rr0, exitNonZero := false }
  else
    let qaAfter := qaReportOf repaired p?
    if qaScorerExit (qaScore repaired p?) fl.failUnder ≠ 0 then
      { qaBeforeRep := qaBefore, repairedDoc := repaired, qaAfterRep := some qaAfter,
        repairReport := rr0, exitNonZero := true }
    else
      let rr1 :=
        match fl.raw, qaBefore, rr0 with
        | false, some qb, some r =>
          some { r with qa_diff := some (computeQaDiff qb qaAfter fl.failUnder) }
        | _, _, _ => rr0
      { qaBeforeRep := qaBefore, repairedDoc := repaired, qaAfterRep := some qaAfter,
        repairReport := rr1, exitNonZero := false }

/-- C10: the issue report's `summary.count` equals the number of emitted
issues, the per-category and per-severity counts each sum to it, every
severity is high/medium/low, and the ids are the consecutive zero-padded
sequence ISSUE_001, ISSUE_002, … in emission order. -/
theorem buildQaIssueReport_invariants (qa : QaInput) (rr : Option (List RiskInput)) :
    (buildQaIssueReport qa rr).summary.count = (buildQaIssueReport qa rr).issues.length
    ∧ (((buildQaIssueReport qa rr).summary.by_category.map Prod.snd).sum =
        (buildQaIssueReport qa rr).summary.count)
    ∧ (((buildQaIssueReport qa rr).summary.by_severity.map Prod.snd).sum =
        (buildQaIssueReport qa rr).summary.count)
    ∧ (buildQaIssueReport qa rr).issues.all (fun i => sevOK i.severity) = true
    ∧ (buildQaIssueReport qa rr).issues.map (fun i => i.id) =
        (List.range (buildQaIssueReport qa rr).issues.length).map (fun j => issueId (j + 1)) := by
  refine ⟨rfl, ?_, ?_, ?_, ?_⟩
  · show ((countsOf _).map Prod.snd).sum = _
    rw [countsOf_sum, List.length_map]
    rfl
  · show ((countsOf _).map Prod.snd).sum = _
    rw [countsOf_sum, List.length_map]
    rfl
  · show (assignIds 1 (preIssues qa rr)).all (fun i => sevOK i.severity) = true
    rw [assignIds_sev]
    exact preIssues_sev qa rr
  · show (assignIds 1 (preIssues qa rr)).map (fun i => i.id) =
      (List.range ((assignIds 1 (preIssues qa rr)).length)).map (fun j => issueId (j + 1))
    rw [assignIds_length, assignIds_ids]
    apply List.map_congr_left
    intro j _
    exact congrArg issueId (by omega)

/-- The per-metric delta is after-minus-before for every key of the before
metrics. -/
theorem lookupQ_delta :
    ∀ (l : List (String × JVal)) (after : List (String × JVal)) (k : String) (bv : JVal),
      getKey l k = some bv →
      lookupQ (l.map (fun kv => (kv.1, numOr0 (getKey after kv.1) - jnumOr0 kv.2))) k =
        some (numOr0 (getKey after k) - jnumOr0 bv)
  | [], _, k, bv, h => by simp [getKey] at h
  | (k0, v0) :: rest, after, k, bv, h => by
    by_cases hk : k0 = k
    · subst hk
      simp only [getKey, BEq.refl, if_pos] at h
      rw [Option.some.injEq] at h
      subst h
      simp [lookupQ]
    · have hb : (k0 == k) = false := by simp [hk]
      simp only [getKey, hb, Bool.false_eq_true, if_false] at h
      simp only [List.map_cons, lookupQ, hb, Bool.false_eq_true, if_false]
      exact lookupQ_delta rest after k bv h

/-- C4: with repair and scoring enabled (neither `--raw` nor `--no-score`),
the scorer first runs on the unrepaired document, runs again after repair,
and a `qa_diff` — before score/metrics, after score/metrics, and a
per-metric delta equal to after minus before — is merged into the persisted
repair report. -/
theorem cmdDraw_qa_before_after_diff (d : Doc) (p? : Option Plan) :
    (cmdDrawQa ⟨false, false, none⟩ d p?).qaBeforeRep = some (qaReportOf d p?)
    ∧ (cmdDrawQa ⟨false, false, none⟩ d p?).qaAfterRep =
        some (qaReportOf (postprocessMandatory d) p?)
    ∧ ((cmdDrawQa ⟨false, false, none⟩ d p?).repairReport.map (fun r => r.qa_diff)) =
        some (some (computeQaDiff (qaReportOf d p?)
          (qaReportOf (postprocessMandatory d) p?) none))
    ∧ (computeQaDiff (qaReportOf d p?)
        (qaReportOf (postprocessMandatory d) p?) none).beforeRep = qaReportOf d p?
    ∧ (computeQaDiff (qaReportOf d p?)
        (qaReportOf (postprocessMandatory d) p?) none).afterRep =
          qaReportOf (postprocessMandatory d) p?
    ∧ (∀ k bv,
        getKey (qaReportOf d p?).metrics k = some bv →
        lookupQ (computeQaDiff (qaReportOf d p?)
            (qaReportOf (postprocessMandatory d) p?) none).deltaMetrics k =
          some (numOr0 (getKey (qaReportOf (postprocessMandatory d) p?).metrics k) -
            jnumOr0 bv)) := by
  refine ⟨rfl, rfl, rfl, rfl, rfl, ?_⟩
  intro k bv h
  exact lookupQ_delta _ _ k bv h

/-- Witness for C4 on the empty document: the `iso_hidden_count` metric is
present before and after, and its delta entry is after minus before. -/
theorem cmdDraw_qa_before_after_diff_witness :
    getKey (qaReportOf [] none).metrics "iso_hidden_count" =
      some (JVal.num ((count_iso_hidden [] : ℕ) : ℚ))
    ∧ lookupQ (computeQaDiff (qaReportOf [] none)
        (qaReportOf (postprocessMandatory []) none) none).deltaMetrics "iso_hidden_count" =
      some (numOr0 (getKey (qaReportOf (postprocessMandatory []) none).metrics
          "iso_hidden_count") -
        jnumOr0 (JVal.num ((count_iso_hidden [] : ℕ) : ℚ))) := by
  have h : getKey (qaReportOf [] none).metrics "iso_hidden_count" =
      some (JVal.num ((count_iso_hidden [] : ℕ) : ℚ)) := rfl
  exact ⟨h, (cmdDraw_qa_before_after_diff [] none).2.2.2.2.2 "iso_hidden_count" _ h⟩

/-- C5: with `--fail-under N` (and repair/scoring enabled), the draw
command exits non-zero exactly when the post-repair score is below N, and
the repair report's gate records `{fail_under := N, passed := true}` exactly
when the score is at least N (a score equal to N passes; on failure the QA
stage aborts before the merge, so no gate is recorded). -/
theorem cmdDraw_fail_under_gate (d : Doc) (p? : Option Plan) (n : ℤ) :
    ((cmdDrawQa ⟨false, false, some n⟩ d p?).exitNonZero = true
      ↔ qaScore (postprocessMandatory d) p? < n)
    ∧ (((cmdDrawQa ⟨false, false, some n⟩ d p?).repairReport.bind
          (fun r => r.qa_diff)).map (fun diff => diff.gate)
        = some { fail_under := some n, passed := true }
      ↔ n ≤ qaScore (postprocessMandatory d) p?) := by
  by_cases hs : qaScore (postprocessMandatory d) p? < n
  · have hexit : qaScorerExit (qaScore (postprocessMandatory d) p?) (some n) = 1 := by
      simp [qaScorerExit, hs]
    have hout : cmdDrawQa ⟨false, false, some n⟩ d p? =
        { qaBeforeRep := some (qaReportOf d p?),
          repairedDoc := postprocessMandatory d,
          qaAfterRep := some (qaReportOf (postprocessMandatory d) p?),
          repairReport := some
            { rules := repairRules d, plan := planMetaOf p?, qa_diff := none },
          exitNonZero := true } := by
      unfold cmdDrawQa
      simp only [Bool.not_false, Bool.and_self, Bool.false_eq_true, if_false, if_true, hexit]
      norm_num
    rw [hout]
    constructor
    · exact iff_of_true rfl hs
    · exact iff_of_false (by simp) (not_le.mpr hs)
  · have hexit : qaScorerExit (qaScore (postprocessMandatory d) p?) (some n) = 0 := by
      simp [qaScorerExit, hs]
    have hle : n ≤ qaScore (postprocessMandatory d) p? := not_lt.mp hs
    have hout : cmdDrawQa ⟨false, false, some n⟩ d p? =
        { qaBeforeRep := some (qaReportOf d p?),
          repairedDoc := postprocessMandatory d,
          qaAfterRep := some (qaReportOf (postprocessMandatory d) p?),
          repairReport := some
            { rules := repairRules d, plan := planMetaOf p?,
              qa_diff := some (computeQaDiff (qaReportOf d p?)
                (qaReportOf (postprocessMandatory d) p?) (some n)) },
          exitNonZero := false } := by
      unfold cmdDrawQa
      simp only [Bool.not_false, Bool.and_self, Bool.false_eq_true, if_false, if_true, hexit]
      norm_num
    rw [hout]
    constructor
    · exact iff_of_false (by simp) hs
    · refine iff_of_true ?_ hle
      show some (computeQaDiff (qaReportOf d p?)
        (qaReportOf (postprocessMandatory d) p?) (some n)).gate =
        some { fail_under := some n, passed := true }
      have hpassed : (computeQaDiff (qaReportOf d p?)
          (qaReportOf (postprocessMandatory d) p?) (some n)).gate.passed = true := by
        show decide ((n : ℚ) ≤ scoreOr0 (qaReportOf (postprocessMandatory d) p?).score) = true
        have hval : scoreOr0 (qaReportOf (postprocessMandatory d) p?).score =
            ((qaScore (postprocessMandatory d) p? : ℤ) : ℚ) := rfl
        rw [hval, decide_eq_true_eq]
        exact_mod_cast hle
      have hfu : (computeQaDiff (qaReportOf d p?)
          (qaReportOf (postprocessMandatory d) p?) (some n)).gate.fail_under = some n := rfl
      rw [Option.some.injEq]
      have : (computeQaDiff (qaReportOf d p?)
          (qaReportOf (postprocessMandatory d) p?) (some n)).gate =
          { fail_under := (computeQaDiff (qaReportOf d p?)
              (qaReportOf (postprocessMandatory d) p?) (some n)).gate.fail_under,
            passed := (computeQaDiff (qaReportOf d p?)
              (qaReportOf (postprocessMandatory d) p?) (some n)).gate.passed } := rfl
      rw [this, hpassed, hfu]

/-- C9: whenever a repair report is persisted, it carries a `plan`
sub-object: `used = true` with the applied family template (the plan's
`part_type`) when a plan was supplied, `used = false` otherwise. -/
theorem cmdDraw_plan_meta (fl : DrawFlags) (d : Doc) (p? : Option Plan) (r : RepairReport)
    (hr : (cmdDrawQa fl d p?).repairReport = some r) :
    (∀ p, p? = some p →
      r.plan.used = true ∧ r.plan.template = some (p.part_type.getD "unknown"))
    ∧ (p? = none → r.plan.used = false) := by
  have hplan : r.plan = planMetaOf p? := by
    unfold cmdDrawQa at hr
    by_cases hraw : fl.raw = true <;> by_cases hns : fl.noScore = true <;>
      simp only [hraw, hns, Bool.not_true, Bool.not_false, Bool.and_self, Bool.and_true,
        Bool.true_and, Bool.false_and, Bool.and_false, Bool.false_eq_true,
        if_true, if_false] at hr
    · exact absurd hr (by simp)
    · split at hr
      · exact absurd hr (by simp)
      · exact absurd hr (by simp)
    · injection hr with h
      rw [← h]
    · split at hr
      · injection hr with h
        rw [← h]
      · injection hr with h
        rw [← h]
  constructor
  · intro p hp
    rw [hp] at hplan
    rw [hplan]
    exact ⟨rfl, rfl⟩
  · intro hp
    rw [hp] at hplan
    rw [hplan]
    rfl

def wPlan : Plan := { part_type := some "flange", dim_intents := [] }

/-- Witness for C9: drawing the empty document with a flange plan persists
a repair report whose plan metadata records the applied template. -/
theorem cmdDraw_plan_meta_witness :
    (cmdDrawQa ⟨false, true, none⟩ [] (some wPlan)).repairReport =
      some { rules := repairRules [], plan := planMetaOf (some wPlan), qa_diff := none }
    ∧ ((cmdDrawQa ⟨false, true, none⟩ [] (some wPlan)).repairReport.map
        (fun rr => rr.plan.used)) = some true := by
  have hr : (cmdDrawQa ⟨false, true, none⟩ [] (some wPlan)).repairReport =
      some { rules := repairRules [], plan := planMetaOf (some wPlan), qa_diff := none } := rfl
  have h := (cmdDraw_plan_meta ⟨false, true, none⟩ [] (some wPlan) _ hr).1 wPlan rfl
  refine ⟨hr, ?_⟩
  rw [hr]
  show some (planMetaOf (some wPlan)).used = some true
  rw [h.1]

/-! ## Parse failure aborts the repair pipeline (C8)

Modelled from the spec: the post-processor loads the SVG, applies the rule
tiers, and writes the output only after a successful parse; a parse
failure aborts with an error and the original file is never overwritten.
The document file is modelled as a token stream; parsing rebuilds the
group tree and fails on stray or unbalanced group delimiters. -/

inductive Tok where
  | openG (cls : String) (stroke : List (String × String)) : Tok
  | closeG : Tok
  | pathT (pts : List (ℚ × ℚ)) : Tok
  | textT (content : List String) (x y fontSize : ℚ) : Tok

/-- Parse one group body up to its closing delimiter. -/
def parseBody : List Tok → Option (List PathElem × List TextElem × List Tok)
  | [] => none
  | Tok.closeG :: rest => some ([], [], rest)
  | Tok.pathT pts :: rest =>
    match parseBody rest with
    | none => none
    | some (ps, ts, r) => some (⟨pts⟩ :: ps, ts, r)
  | Tok.textT c x y f :: rest =>
    match parseBody rest with
    | none => none
    | some (ps, ts, r) => some (ps, ⟨c, x, y, f⟩ :: ts, r)
  | Tok.openG _ _ :: _ => none

/-- Parse a whole document (fuel-bounded by the token count). -/
def parseDocAux : ℕ → List Tok → Option Doc
  | _, [] => some []
  | 0, _ :: _ => none
  | fuel + 1, Tok.openG cls stroke :: rest =>
    match parseBody rest with
    | none => none
    | some (ps, ts, r) =>
      match parseDocAux fuel r with
      | none => none
      | some d => some (⟨cls, stroke, ps, ts⟩ :: d)
  | _ + 1, _ :: _ => none

def parseSvg (toks : List Tok) : Option Doc := parseDocAux toks.length toks

def serialize (d : Doc) : List Tok :=
  flatMapL
    (fun g =>
      Tok.openG g.cls g.stroke ::
      (g.paths.map (fun p => Tok.pathT p.pts) ++
       g.texts.map (fun t => Tok.textT t.content t.x t.y t.fontSize) ++ [Tok.closeG])) d

inductive PPResult where
  | ok (report : List (String × JVal)) : PPResult
  | parseError : PPResult

/-- Modelled from the spec: run the post-processor on a document file.
Returns the result and the file's contents after the call — the output is
written only on the success path. -/
def postprocessFile (content : List Tok) : PPResult × List Tok :=
  match parseSvg content with
  | none => (PPResult.parseError, content)
  | some d => (PPResult.ok (repairRules d), serialize (postprocessMandatory d))

/-- C8: if the input document cannot be parsed as a well-formed tree, the
pipeline aborts with a parse-error signal and the original file is left
untouched — never partially overwritten, and the failed state is not
persisted. -/
theorem postprocess_parse_failure (content : List Tok)
    (h : parseSvg content = none) :
    (postprocessFile content).1 = PPResult.parseError
    ∧ (postprocessFile content).2 = content := by
  unfold postprocessFile
  rw [h]
  exact ⟨rfl, rfl⟩

/-- Witness for C8: a stray closing delimiter is not a well-formed tree;
the file survives unmodified. -/
theorem postprocess_parse_failure_witness :
    parseSvg [Tok.closeG] = none
    ∧ (postprocessFile [Tok.closeG]).1 = PPResult.parseError
    ∧ (postprocessFile [Tok.closeG]).2 = [Tok.closeG] := by
  have h : parseSvg [Tok.closeG] = none := rfl
  obtain ⟨h1, h2⟩ := postprocess_parse_failure [Tok.closeG] h
  exact ⟨h, h1, h2⟩

/-- Witness for the amended C2 theorem at a concrete rounded document. -/
theorem mandatory_tier_idempotent_witness :
    docRounded roundedWitnessDoc = true ∧
    postprocessMandatory (postprocessMandatory roundedWitnessDoc) =
      postprocessMandatory roundedWitnessDoc := by
  have hd : docRounded roundedWitnessDoc = true := by
    simp [docRounded, roundedWitnessDoc, groupRounded, pathRounded, textRounded,
      roundedQ, roundTo2_210, roundTo2_73]
  exact ⟨hd, (mandatory_tier_idempotent roundedWitnessDoc).2 hd⟩

end FreecadQA
